import Mathlib

/-!
# Verification of the m2h Markdown-to-HTML converter

Shallow embedding of `m2h.cpp`: a line-oriented Markdown scanner with a
table-of-contents builder, heading-id assigner, table buffering, and a CLI
front end.  Machine strings are modelled as Lean `String`/`List Char`;
`std::map<std::string,int>` is modelled as an association list (only lookup
and update are used, so ordering is irrelevant); `std::regex` tests are
modelled as equivalent deterministic recognizers (each regex in the source
is anchored and its character classes make backtracking vacuous; the
equivalence argument is recorded at each recognizer).
-/

namespace M2h

/-- ASCII lower-casing, modelling C `::tolower` in the default locale
(`std::transform(id.begin(), id.end(), id.begin(), ::tolower)`). -/
def toLowerC (c : Char) : Char :=
  if 'A' ≤ c ∧ c ≤ 'Z' then Char.ofNat (c.toNat + 32) else c

/-- C `isalnum` in the default locale: ASCII letters and digits. -/
def isAlnumC (c : Char) : Bool := c.isAlpha || c.isDigit

/-- A character kept by `sanitize_id`'s `remove_if` filter (m2h.cpp:62-64). -/
def keepIdChar (c : Char) : Bool := isAlnumC c || c = '-' || c = '_'

/-- `sanitize_id` (m2h.cpp:52-67): lower-case, replace spaces by hyphens,
then delete all characters that are not alphanumeric, `-` or `_`. -/
def sanitize_id (text : String) : String :=
  String.mk (((text.data.map toLowerC).map fun c =>
    if c = ' ' then '-' else c).filter keepIdChar)

/-- Lookup in the `id_counts` association list (modelling `std::map::find`). -/
def lookupC : List (String × Nat) → String → Option Nat
  | [], _ => none
  | (k, v) :: rest, key => if k = key then some v else lookupC rest key

/-- Update/insert in the `id_counts` association list (modelling
`std::map::operator[]` assignment). -/
def updateC : List (String × Nat) → String → Nat → List (String × Nat)
  | [], key, v => [(key, v)]
  | (k, w) :: rest, key, v =>
    if k = key then (key, v) :: rest else (k, w) :: updateC rest key v

/-- `generate_unique_id` (m2h.cpp:69-79).  `std::to_string` is `Nat.repr`. -/
def generate_unique_id (base : String) (idCounts : List (String × Nat)) :
    String × List (String × Nat) :=
  let id := sanitize_id base
  match lookupC idCounts id with
  | some c => (id ++ "-" ++ Nat.repr (c + 1), updateC idCounts id (c + 1))
  | none => (id, updateC idCounts id 0)

/-- The `find("**")`/`erase` loop of `clean_header_text` (m2h.cpp:81-88).
The C++ loop repeatedly erases the leftmost `**` at or after the previous
erase position; since an erase can never create a new `**` strictly to the
left of that position, this equals a single left-to-right scan deleting
each `**` pair greedily. -/
def cleanChars : List Char → List Char
  | '*' :: '*' :: rest => cleanChars rest
  | c :: rest => c :: cleanChars rest
  | [] => []

/-- `clean_header_text` (m2h.cpp:81-88). -/
def clean_header_text (text : String) : String := String.mk (cleanChars text.data)

/-- ECMAScript `\s` restricted to the characters that can occur in a line
read by `std::getline` (no `'\n'` inside a line, but it is included for
completeness). -/
def wsChar (c : Char) : Bool :=
  c = ' ' || c = '\t' || c = '\r' || c = '\n' || c = '\x0b' || c = '\x0c'

/-- A character of the `[-*_]` class of `horizontal_rule_regex`. -/
def hrBody (c : Char) : Bool := c = '-' || c = '*' || c = '_'

/-- `horizontal_rule_regex` `^\s*[-*_]{3,}\s*$` (m2h.cpp:114).  The classes
`\s` and `[-*_]` are disjoint, so the greedy match is the only possible
one: leading whitespace, a run of at least three rule characters, trailing
whitespace. -/
def isHorizontalRule (l : List Char) : Bool :=
  let t := l.dropWhile wsChar
  decide (3 ≤ (t.takeWhile hrBody).length) && (t.dropWhile hrBody).all wsChar

/-- `code_block_regex` `^```(.*)` under `regex_match` (m2h.cpp:108, 135):
the line starts with three backticks and the rest is the language label.
ECMAScript `.` matches any character except a line terminator, so the
remainder must contain no `'\r'` (a `'\n'` cannot occur inside a line);
a CRLF fence line therefore does not match and falls through to the
other categories. -/
def fenceMatch (l : List Char) : Option (List Char) :=
  match l with
  | c1 :: c2 :: c3 :: rest =>
    if c1 = Char.ofNat 96 ∧ c2 = Char.ofNat 96 ∧ c3 = Char.ofNat 96 ∧ '\r' ∉ rest then
      some rest
    else none
  | _ => none

/-- A character of the `[-:]` class. -/
def dashColon (c : Char) : Bool := c = '-' || c = ':'

/-- A character of the `[-:\s\|]` class. -/
def dividerTail (c : Char) : Bool := c = '-' || c = ':' || wsChar c || c = '|'

/-- `table_divider_regex` `^\s*\|?[-:]+\|[-:\s\|]+\|?\s*$` (m2h.cpp:113).
Deterministic equivalent: the trailing `\|?\s*$` is subsumed by the class
`[-:\s\|]+` (both `|` and whitespace belong to it), so the regex matches
iff the line is: optional whitespace, an optional pipe, a nonempty run of
`-`/`:`, a pipe, and a nonempty remainder over `[-:\s|]`. -/
def stripBar (t : List Char) : List Char :=
  match t with | '|' :: r => r | _ => t

def dividerBody (t1 : List Char) : Bool :=
  match t1.dropWhile dashColon with
  | '|' :: rest => !(t1.takeWhile dashColon).isEmpty && (!rest.isEmpty && rest.all dividerTail)
  | _ => false

def isTableDivider (l : List Char) : Bool := dividerBody (stripBar (l.dropWhile wsChar))

/-- The `h1_regex` … `h6_regex` cascade `^#{k}\s+(.*)` tried for k = 1..6
(m2h.cpp:102-107, 199-235).  For a line with k leading `#` characters,
every regex with fewer hashes fails (the `\s+` meets a `#`), and the k-th
matches iff k ≤ 6, a whitespace character follows, and — because
ECMAScript `.` excludes the line terminator `'\r'` while `\s` includes
it — the group left after the maximal whitespace run contains no `'\r'`
(shortening `\s+` by backtracking only moves whitespace into the group
and cannot remove a later `'\r'`, so the match is deterministic); a CRLF
heading line such as `# x\r` does not match and becomes a paragraph.  The
group `(.*)` is the text after all leading whitespace. -/
def headingMatch (l : List Char) : Option (Nat × List Char) :=
  let hashes := l.takeWhile fun c => c = '#'
  let rest := l.dropWhile fun c => c = '#'
  if 1 ≤ hashes.length ∧ hashes.length ≤ 6 then
    match rest with
    | c :: _ =>
      if wsChar c then
        if '\r' ∈ rest.dropWhile wsChar then none
        else some (hashes.length, rest.dropWhile wsChar)
      else none
    | [] => none
  else none

/-- `link_regex` `\[([^\]]+)\]\(([^\)]+)\)` replacement with
`<a href="$2">$1</a>`, applied by `regex_replace` to every non-overlapping
leftmost match (the bracketed classes make the greedy match the only one).
Fuel-based recursion; the fuel is instantiated with the list length, which
bounds the number of scanning steps. -/
def linkAux : Nat → List Char → List Char
  | 0, l => l
  | _ + 1, [] => []
  | fuel + 1, c :: rest =>
    if c = '[' then
      let t := rest.takeWhile fun d => d ≠ ']'
      match t, rest.drop t.length with
      | _ :: _, ']' :: '(' :: r2 =>
        let u := r2.takeWhile fun d => d ≠ ')'
        match u, r2.drop u.length with
        | _ :: _, ')' :: r4 =>
          ("<a href=\"").data ++ u ++ ("\">").data ++ t ++ ("</a>").data ++ linkAux fuel r4
        | _, _ => c :: linkAux fuel rest
      | _, _ => c :: linkAux fuel rest
    else c :: linkAux fuel rest

def replaceLinks (l : List Char) : List Char := linkAux l.length l

/-- `bold_regex` `\*\*([^\*]+)\*\*` replaced by `<strong>$1</strong>`. -/
def boldAux : Nat → List Char → List Char
  | 0, l => l
  | _ + 1, [] => []
  | fuel + 1, c :: rest =>
    if c = '*' then
      match rest with
      | '*' :: r1 =>
        let g := r1.takeWhile fun d => d ≠ '*'
        match g, r1.drop g.length with
        | _ :: _, '*' :: '*' :: r2 =>
          ("<strong>").data ++ g ++ ("</strong>").data ++ boldAux fuel r2
        | _, _ => c :: boldAux fuel rest
      | _ => c :: boldAux fuel rest
    else c :: boldAux fuel rest

def replaceBold (l : List Char) : List Char := boldAux l.length l

/-- `italic_regex` `\*([^\*]+)\*` replaced by `<em>$1</em>`. -/
def italicAux : Nat → List Char → List Char
  | 0, l => l
  | _ + 1, [] => []
  | fuel + 1, c :: rest =>
    if c = '*' then
      let g := rest.takeWhile fun d => d ≠ '*'
      match g, rest.drop g.length with
      | _ :: _, '*' :: r2 => ("<em>").data ++ g ++ ("</em>").data ++ italicAux fuel r2
      | _, _ => c :: italicAux fuel rest
    else c :: italicAux fuel rest

def replaceItalic (l : List Char) : List Char := italicAux l.length l

/-- `inline_code_regex` for backtick-delimited spans replaced by
`<code>$1</code>`. -/
def codeAux : Nat → List Char → List Char
  | 0, l => l
  | _ + 1, [] => []
  | fuel + 1, c :: rest =>
    if c = Char.ofNat 96 then
      let g := rest.takeWhile fun d => d ≠ Char.ofNat 96
      match g, rest.drop g.length with
      | _ :: _, d :: r2 =>
        if d = Char.ofNat 96 then ("<code>").data ++ g ++ ("</code>").data ++ codeAux fuel r2
        else c :: codeAux fuel rest
      | _, _ => c :: codeAux fuel rest
    else c :: codeAux fuel rest

def replaceCode (l : List Char) : List Char := codeAux l.length l

/-- Inline substitution order for ordinary lines (m2h.cpp:239-242):
links, bold, italic, inline code. -/
def inlineParagraph (l : List Char) : List Char :=
  replaceCode (replaceItalic (replaceBold (replaceLinks l)))

/-- Inline substitution order for table cells (m2h.cpp:169-172):
bold, italic, inline code, links. -/
def inlineCell (l : List Char) : List Char :=
  replaceLinks (replaceCode (replaceItalic (replaceBold l)))

/-- A character erased by the cell trimming (space or tab, m2h.cpp:166-167). -/
def cellTrimChar (c : Char) : Bool := c = ' ' || c = '\t'

/-- Cell trimming (m2h.cpp:166-167). -/
def trimCell (l : List Char) : List Char :=
  ((l.dropWhile cellTrimChar).reverse.dropWhile cellTrimChar).reverse

/-- `process_table_line` (m2h.cpp:90-95): strip one leading and one
trailing pipe. -/
def process_table_line (l : List Char) : List Char :=
  let l1 := match l with | '|' :: r => r | _ => l
  match l1.getLast? with
  | some '|' => l1.dropLast
  | _ => l1

/-- Split on a delimiter, keeping empty segments (every delimiter starts a
new segment). -/
def splitOnChar (delim : Char) : List Char → List (List Char)
  | [] => [[]]
  | c :: rest =>
    if c = delim then [] :: splitOnChar delim rest
    else match splitOnChar delim rest with
      | s :: ss => (c :: s) :: ss
      | [] => [[c]]

/-- `std::getline` splitting semantics: an empty input yields no segment,
and an input ending with the delimiter yields no final empty segment. -/
def getlineSplit (delim : Char) (l : List Char) : List (List Char) :=
  if l = [] then []
  else if l.getLast? = some delim then (splitOnChar delim l).dropLast
  else splitOnChar delim l

/-- Table-row parsing (m2h.cpp:159-178): strip outer pipes, split on `|`,
trim each cell, apply the cell inline substitutions. -/
def parseTableRow (l : List Char) : List String :=
  (getlineSplit '|' (process_table_line l)).map fun cell =>
    String.mk (inlineCell (trimCell cell))

/-- The inner cell loop of a table flush: `<tag>cell</tag>` per cell. -/
def cellsHtml (tag : String) (cells : List String) : String :=
  cells.foldl (fun acc c => acc ++ "<" ++ tag ++ ">" ++ c ++ "</" ++ tag ++ ">") ""

/-- Row loop of the mid-document table flush (m2h.cpp:181-192): the first
non-skipped row uses `th` cells, later rows use `td`; empty rows are
skipped without consuming the `first_row` flag. -/
def tableRowsMid : Bool → List (List String) → String
  | _, [] => ""
  | firstRow, row :: rest =>
    if row = [] then tableRowsMid firstRow rest
    else "<tr>" ++ cellsHtml (if firstRow then "th" else "td") row ++ "</tr>\n" ++
      tableRowsMid false rest

/-- Mid-document table flush (m2h.cpp:179-196). -/
def midTableHtml (rows : List (List String)) : String :=
  "<table>\n" ++ tableRowsMid true rows ++ "</table>\n"

/-- Row loop of the end-of-document table flush (m2h.cpp:252-263), a
separate code site textually identical to the mid-document loop. -/
def tableRowsEnd : Bool → List (List String) → String
  | _, [] => ""
  | firstRow, row :: rest =>
    if row = [] then tableRowsEnd firstRow rest
    else "<tr>" ++ cellsHtml (if firstRow then "th" else "td") row ++ "</tr>\n" ++
      tableRowsEnd false rest

/-- End-of-document table flush (m2h.cpp:250-265). -/
def endTableHtml (rows : List (List String)) : String :=
  "<table>\n" ++ tableRowsEnd true rows ++ "</table>\n"

/-- `TocEntry` (m2h.cpp:12-16). -/
structure TocEntry where
  level : Nat
  text : String
  id : String
deriving DecidableEq, Repr

/-- The mutable scanner state of `markdown_to_html` (m2h.cpp:97-121):
the accumulated output (as the list of appended fragments, whose
concatenation is the C++ `html` string), the two block-mode flags, the
code language, the table buffer, the id registry and the heading list. -/
structure ScanState where
  frags : List String
  in_code_block : Bool
  in_table : Bool
  code_lang : String
  table_rows : List (List String)
  id_counts : List (String × Nat)
  toc : List TocEntry
deriving DecidableEq, Repr

def initState : ScanState := ⟨[], false, false, "", [], [], []⟩

/-- The heading element emitted for level `n` (m2h.cpp:203, 209, …):
`Nat.repr n` renders the literal digit of the corresponding branch. -/
def headingFrag (n : Nat) (text id : String) : String :=
  "<h" ++ Nat.repr n ++ " id=\"" ++ id ++ "\">" ++ text ++ "</h" ++ Nat.repr n ++ ">\n"

/-- The six identical heading branches (m2h.cpp:199-235), parameterized by
the matched level: clean the text, assign a unique id, emit the element,
append the `TocEntry`. -/
def emitHeading (n : Nat) (raw : List Char) (st : ScanState) : ScanState :=
  let text := clean_header_text (String.mk raw)
  let r := generate_unique_id text st.id_counts
  { st with
    frags := st.frags ++ [headingFrag n text r.1]
    toc := st.toc ++ [⟨n, text, r.1⟩]
    id_counts := r.2 }

/-- The paragraph fall-through (m2h.cpp:238-246). -/
def paragraphFrags (l : List Char) : List String :=
  let p := inlineParagraph l
  if p = [] then [] else ["<p>" ++ String.mk p ++ "</p>\n"]

/-- The heading/paragraph section reached after the table handling
(m2h.cpp:199-246). -/
def afterTables (st : ScanState) (l : List Char) : ScanState :=
  match headingMatch l with
  | some (n, t) => emitHeading n t st
  | none => { st with frags := st.frags ++ paragraphFrags l }

/-- One iteration of the scanner loop (m2h.cpp:122-247), with the branch
order of the source: blank, horizontal rule, fence, code-block body,
divider (falling through to the heading section when it does not activate
a table), pipe row, mid-document flush, headings, paragraph. -/
def processLine (st : ScanState) (line : String) : ScanState :=
  let l := line.data
  if l = [] then st
  else if isHorizontalRule l then { st with frags := st.frags ++ ["<hr>\n"] }
  else match fenceMatch l with
  | some lang =>
    if st.in_code_block = false then
      { st with
        in_code_block := true
        code_lang := String.mk lang
        frags := st.frags ++ ["<pre><code" ++
          (if lang = [] then "" else " class=\"language-" ++ String.mk lang ++ "\"") ++
          ">\n"] }
    else { st with in_code_block := false, frags := st.frags ++ ["</code></pre>\n"] }
  | none =>
    if st.in_code_block then { st with frags := st.frags ++ [line ++ "\n"] }
    else if isTableDivider l then
      if st.in_table = false ∧ st.table_rows ≠ [] then { st with in_table := true }
      else afterTables st l
    else if l.contains '|' then { st with table_rows := st.table_rows ++ [parseTableRow l] }
    else if st.in_table then
      afterTables { st with
        frags := st.frags ++ [midTableHtml st.table_rows]
        table_rows := []
        in_table := false } l
    else afterTables st l

/-- `std::getline` over the whole document (m2h.cpp:122). -/
def getLines (md : String) : List String :=
  (getlineSplit '\n' md.data).map String.mk

def processLines (st : ScanState) (lines : List String) : ScanState :=
  lines.foldl processLine st

/-- The pair of outputs of `markdown_to_html` (m2h.cpp:97-268): the body
HTML (as its fragment list) and the heading sequence. -/
structure ScanResult where
  frags : List String
  toc : List TocEntry
deriving DecidableEq, Repr

/-- `markdown_to_html` (m2h.cpp:97-268), including the end-of-document
table flush. -/
def markdown_to_html (md : String) : ScanResult :=
  let st := processLines initState (getLines md)
  let st := if st.in_table ∧ st.table_rows ≠ [] then
      { st with frags := st.frags ++ [endTableHtml st.table_rows] } else st
  ⟨st.frags, st.toc⟩

/-- The TOC list item for one entry (m2h.cpp:287). -/
def liFrag (e : TocEntry) : String :=
  "<li><a href=\"#" ++ e.id ++ "\" data-id=\"" ++ e.id ++ "\">" ++ e.text ++ "</a></li>\n"

def openUl : String := "<ul>\n"

def closeUl : String := "</ul>\n"

/-- The entry loop of `generate_toc_html` (m2h.cpp:276-293) with the final
closing loop folded into the base case: while the current depth is below
the entry's level open `<ul>`s, while above close `</ul>`s, then emit the
list item; at the end close down to depth 1. -/
def tocBody (cur : Nat) : List TocEntry → List String
  | [] => List.replicate (cur - 1) closeUl
  | e :: es =>
    List.replicate (e.level - cur) openUl ++ List.replicate (cur - e.level) closeUl ++
      [liFrag e] ++ tocBody e.level es

/-- `generate_toc_html` (m2h.cpp:270-297) as its fragment list; empty
heading sequence produces nothing at all. -/
def generate_toc_frags (toc : List TocEntry) : List String :=
  if toc = [] then []
  else ["<div class=\"toc\">\n<h2>Table of Contents</h2>\n", openUl] ++ tocBody 1 toc ++
    [closeUl, "</div>\n"]

/-- `generate_toc_html` as the string the C++ function returns. -/
def generate_toc_html (toc : List TocEntry) : String := String.join (generate_toc_frags toc)

/-- `generate_html_template` (m2h.cpp:532-550). -/
def generate_html_template (title toc_html content_html : String) : String :=
  "<!DOCTYPE html>\n<html lang=\"en\">\n<head>\n    <meta charset=\"UTF-8\">\n    <meta name=\"viewport\" content=\"width=device-width, initial-scale=1.0\">\n    <title>" ++
    title ++
    "</title>\n    <link rel=\"stylesheet\" href=\"styles.css\">\n</head>\n<body>\n" ++
    toc_html ++
    "\n    <div class=\"content\">\n" ++
    content_html ++
    "\n    </div>\n    <script src=\"script.js\"></script>\n</body>\n</html>\n"

/-- The page-title selection of `main` (m2h.cpp:593). -/
def pageTitle (toc : List TocEntry) : String :=
  match toc with
  | [] => "Document"
  | e :: _ => e.text

/-- The page assembly performed by `main` (m2h.cpp:584-594). -/
def pageOf (md : String) : String :=
  let r := markdown_to_html md
  generate_html_template (pageTitle r.toc) (generate_toc_html r.toc) (String.join r.frags)

/-- The fixed stylesheet emitted by `generate_css` (m2h.cpp:299-458). -/
def cssText : String :=
  "\nbody \x7b\n    font-family: \x27Segoe UI\x27, Tahoma, Geneva, Verdana, sans-serif;\n    line-height: 1.6;\n    color: #333;\n    margin: 0;\n    padding: 0;\n    display: flex;\n    min-height: 100vh;\n\x7d\n\n.toc \x7b\n    width: 250px;\n    background-color: #f5f5f5;\n    padding: 20px;\n    border-right: 1px solid #ddd;\n    position: fixed;\n    height: 100vh;\n    overflow-y: auto;\n    box-sizing: border-box;\n\x7d\n\n.toc h2 \x7b\n    margin-top: 0;\n    font-size: 1.2em;\n    color: #444;\n\x7d\n\n.toc ul \x7b\n    list-style: none;\n    padding-left: 15px;\n    margin: 0;\n\x7d\n\n.toc li \x7b\n    margin: 5px 0;\n    position: relative;\n\x7d\n\n.toc a \x7b\n    color: #0366d6;\n    text-decoration: none;\n    display: block;\n    padding: 2px 0;\n    transition: all 0.2s ease;\n\x7d\n\n.toc a:hover \x7b\n    text-decoration: underline;\n\x7d\n\n.toc a.active \x7b\n    font-weight: bold;\n    color: #d03636;\n    border-left: 3px solid #d03636;\n    padding-left: 8px;\n    margin-left: -11px;\n    background-color: #f9f9f9;\n\x7d\n\n.content \x7b\n    flex: 1;\n    margin-left: 290px;\n    padding: 20px;\n    max-width: 800px;\n\x7d\n\nh1, h2, h3, h4, h5, h6 \x7b\n    color: #222;\n    margin-top: 1.5em;\n    margin-bottom: 0.5em;\n    font-weight: 600;\n    scroll-margin-top: 20px;\n\x7d\n\nh1 \x7b font-size: 2em; border-bottom: 1px solid #eaecef; padding-bottom: 0.3em; \x7d\nh2 \x7b font-size: 1.5em; border-bottom: 1px solid #eaecef; padding-bottom: 0.3em; \x7d\nh3 \x7b font-size: 1.25em; \x7d\nh4 \x7b font-size: 1em; \x7d\nh5 \x7b font-size: 0.875em; \x7d\nh6 \x7b font-size: 0.85em; color: #6a737d; \x7d\n\npre \x7b\n    background-color: #f6f8fa;\n    border-radius: 3px;\n    padding: 16px;\n    overflow: auto;\n\x7d\n\ncode \x7b\n    font-family: SFMono-Regular, Consolas, \"Liberation Mono\", Menlo, monospace;\n    background-color: rgba(27,31,35,0.05);\n    border-radius: 3px;\n    padding: 0.2em 0.4em;\n    font-size: 85%;\n\x7d\n\npre code \x7b\n    background-color: transparent;\n    padding: 0;\n\x7d\n\ntable \x7b\n    border-collapse: collapse;\n    width: 100%;\n    margin: 1em 0;\n\x7d\n\nth, td \x7b\n    border: 1px solid #ddd;\n    padding: 8px;\n    text-align: left;\n\x7d\n\nth \x7b\n    background-color: #f2f2f2;\n    font-weight: bold;\n\x7d\n\ntr:nth-child(even) \x7b\n    background-color: #f9f9f9;\n\x7d\n\na \x7b\n    color: #0366d6;\n    text-decoration: none;\n\x7d\n\na:hover \x7b\n    text-decoration: underline;\n\x7d\n\nhr \x7b\n    border: 0;\n    height: 1px;\n    background-color: #ddd;\n    margin: 1.5em 0;\n\x7d\n\n@media (max-width: 768px) \x7b\n    body \x7b\n        flex-direction: column;\n    \x7d\n    \n    .toc \x7b\n        width: 100%;\n        height: auto;\n        position: relative;\n        border-right: none;\n        border-bottom: 1px solid #ddd;\n    \x7d\n    \n    .content \x7b\n        margin-left: 0;\n        padding: 20px;\n    \x7d\n\x7d\n"

/-- The fixed script emitted by `generate_js` (m2h.cpp:460-530). -/
def jsText : String :=
  "\ndocument.addEventListener(\x27DOMContentLoaded\x27, function() \x7b\n    // Configuración del IntersectionObserver\n    const observer = new IntersectionObserver(function(entries) \x7b\n        entries.forEach(function(entry) \x7b\n            if (entry.isIntersecting) \x7b\n                const id = entry.target.getAttribute(\x27id\x27);\n                const tocLink = document.querySelector(\x60.toc a[href=\"#$\x7bid\x7d\"]\x60);\n                \n                // Remover activo de todos los enlaces\n                document.querySelectorAll(\x27.toc a\x27).forEach(function(link) \x7b\n                    link.classList.remove(\x27active\x27);\n                \x7d);\n                \n                // Agregar activo al enlace actual\n                if (tocLink) \x7b\n                    tocLink.classList.add(\x27active\x27);\n                    \n                    // Scroll suave para mostrar el enlace activo\n                    const toc = document.querySelector(\x27.toc\x27);\n                    const linkRect = tocLink.getBoundingClientRect();\n                    const tocRect = toc.getBoundingClientRect();\n                    \n                    if (linkRect.top < tocRect.top) \x7b\n                        toc.scrollTo(\x7b\n                            top: toc.scrollTop + linkRect.top - tocRect.top - 20,\n                            behavior: \x27smooth\x27\n                        \x7d);\n                    \x7d else if (linkRect.bottom > tocRect.bottom) \x7b\n                        toc.scrollTo(\x7b\n                            top: toc.scrollTop + linkRect.bottom - tocRect.bottom + 20,\n                            behavior: \x27smooth\x27\n                        \x7d);\n                    \x7d\n                \x7d\n            \x7d\n        \x7d);\n    \x7d, \x7b\n        root: null,\n        rootMargin: \x270px\x27,\n        threshold: 0.5\n    \x7d);\n\n    // Observar todos los encabezados\n    document.querySelectorAll(\x27h1, h2, h3, h4, h5, h6\x27).forEach(function(header) \x7b\n        observer.observe(header);\n    \x7d);\n\n    // Scroll suave para enlaces del TOC\n    document.querySelectorAll(\x27.toc a\x27).forEach(function(link) \x7b\n        link.addEventListener(\x27click\x27, function(e) \x7b\n            e.preventDefault();\n            const targetId = this.getAttribute(\x27href\x27);\n            const targetElement = document.querySelector(targetId);\n            \n            if (targetElement) \x7b\n                // Scroll suave al elemento\n                targetElement.scrollIntoView(\x7b\n                    behavior: \x27smooth\x27,\n                    block: \x27start\x27\n                \x7d);\n                \n                // Actualizar URL\n                history.pushState(null, null, targetId);\n            \x7d\n        \x7d);\n    \x7d);\n\x7d);\n"

/-- Output channels of the process. -/
inductive Channel where
  | stdout
  | stderr
deriving DecidableEq, Repr

/-- One stream write: the channel and the text written. -/
abbrev Ev := Channel × String

/-- The six `std::cout` lines of `show_help` (m2h.cpp:18-25). -/
def usageLines : List String :=
  ["Uso: m2h -m archivo.md -o salida.html\n",
   "Convierte archivos Markdown a HTML con tabla de contenidos\n\n",
   "Opciones:\n",
   "  -m, --markdown <archivo>  Archivo Markdown de entrada\n",
   "  -o, --output <archivo>    Archivo HTML de salida\n",
   "  -h, --help                Muestra este mensaje de ayuda\n"]

/-- `show_help` (m2h.cpp:18-25): the usage text, written to standard output. -/
def show_help : List Ev := usageLines.map fun s => (Channel.stdout, s)

/-- Result of `parse_args` (m2h.cpp:27-50): the return value, the two
paths (empty string = unset, as for a default-constructed `fs::path`),
and the stream writes it performed. -/
structure ParseResult where
  ok : Bool
  markdown_path : String
  output_path : String
  events : List Ev
deriving DecidableEq, Repr

/-- The argument loop of `parse_args` (m2h.cpp:28-41).  `-h`/`--help`
prints the usage and returns early; `-m`/`-o` with a following argument
consume it; anything else is ignored.  Returns the paths and, when help
was requested, the events of the early return. -/
def parseLoop : List String → String → String → String × String × Option (List Ev)
  | [], m, o => (m, o, none)
  | arg :: rest, m, o =>
    if arg = "-h" ∨ arg = "--help" then (m, o, some show_help)
    else if (arg = "-m" ∨ arg = "--markdown") ∧ rest ≠ [] then
      match rest with
      | v :: rest2 => parseLoop rest2 v o
      | [] => (m, o, none)
    else if (arg = "-o" ∨ arg = "--output") ∧ rest ≠ [] then
      match rest with
      | v :: rest2 => parseLoop rest2 m v
      | [] => (m, o, none)
    else parseLoop rest m o

/-- The `std::cerr` message for missing required flags (m2h.cpp:44). -/
def missingMsg : String :=
  "Error: Se requieren tanto el archivo de entrada como el de salida\n"

/-- `parse_args` (m2h.cpp:27-50): run the argument loop; on a help flag
return `false` after printing the usage; if either path is still empty,
print the error to `stderr` and the usage (via `show_help`, to `stdout`)
and return `false`. -/
def parse_args (args : List String) : ParseResult :=
  match parseLoop args "" "" with
  | (m, o, some evs) => ⟨false, m, o, evs⟩
  | (m, o, none) =>
    if m = "" ∨ o = "" then
      ⟨false, m, o, (Channel.stderr, missingMsg) :: show_help⟩
    else ⟨true, m, o, []⟩

/-- The `std::cerr` message for a nonexistent input file (m2h.cpp:571);
streaming an `fs::path` quotes it. -/
def inputMissingMsg (p : String) : String :=
  "Error: El archivo de entrada no existe: \"" ++ p ++ "\"\n"

/-- `fs::path::parent_path` for POSIX-style path strings (m2h.cpp:588):
everything before the last separator, `/` for a file directly under the
root, empty when there is no separator. -/
def parentDir (p : String) : String :=
  if '/' ∈ p.data then
    let d := String.mk ((p.data.reverse.dropWhile fun c => c ≠ '/').reverse.dropLast)
    if d = "" then "/" else d
  else ""

/-- `fs::path::operator/` on path strings (m2h.cpp:600, 605): an empty
directory contributes nothing, otherwise a separator is inserted unless
one is already present. -/
def joinPath (dir name : String) : String :=
  if dir = "" then name
  else if dir.data.getLast? = some '/' then dir ++ name
  else dir ++ "/" ++ name

/-- Streaming an `fs::path` with `operator<<` prints it quoted
(`std::quoted`; escaping of embedded quotes does not arise for the paths
the claims use). -/
def quotePath (p : String) : String := "\"" ++ p ++ "\""

/-- Observable result of one `main` invocation: exit code, stream writes,
and the files written (path, content). -/
structure MainResult where
  exit : Nat
  events : List Ev
  written : List (String × String)
deriving DecidableEq, Repr

/-- `main` (m2h.cpp:562-616) as a function of the argument list and an
abstract read-only file system (input path to content).  Directory
creation and write failures are not modelled (writes are assumed to
succeed); the companion assets are written under their fixed names in the
output directory. -/
def runMain (args : List String) (fs : String → Option String) : MainResult :=
  let p := parse_args args
  if p.ok = false then ⟨1, p.events, []⟩
  else match fs p.markdown_path with
  | none => ⟨1, p.events ++ [(Channel.stderr, inputMissingMsg p.markdown_path)], []⟩
  | some md =>
    let r := markdown_to_html md
    let page := generate_html_template (pageTitle r.toc) (generate_toc_html r.toc)
      (String.join r.frags)
    let css_path := joinPath (parentDir p.output_path) "styles.css"
    let js_path := joinPath (parentDir p.output_path) "script.js"
    ⟨0, p.events ++
        [(Channel.stdout, "Successfully generated:\n"),
         (Channel.stdout, "  HTML: " ++ quotePath p.output_path ++ "\n"),
         (Channel.stdout, "  CSS: " ++ quotePath css_path ++ "\n"),
         (Channel.stdout, "  JS: " ++ quotePath js_path ++ "\n")],
      [(p.output_path, page), (css_path, cssText), (js_path, jsText)]⟩



/-- Decimal decoding, a left inverse of `Nat.toDigits 10` used only to
prove that `Nat.repr` is injective. -/
def decDigit (a : Nat) (c : Char) : Nat := 10 * a + (c.toNat - 48)

/-- The registry key of a heading entry: the sanitized heading text. -/
def entryKey (e : TocEntry) : String := sanitize_id e.text

/-- Invariant tying the id registry to the emitted heading entries: every
entry's key is registered, its id is the key itself or the key suffixed
with `-k` for some `1 ≤ k` at most the key's counter, and all emitted ids
are distinct. -/
def IdInv (m : List (String × Nat)) (toc : List TocEntry) : Prop :=
  (∀ e ∈ toc, ∃ c, lookupC m (entryKey e) = some c ∧
    (e.id = entryKey e ∨ ∃ k, 1 ≤ k ∧ k ≤ c ∧ e.id = entryKey e ++ "-" ++ Nat.repr k)) ∧
  (toc.map TocEntry.id).Nodup

/-! ## Properties of the decimal representation `Nat.repr`
(`std::to_string` in the source). -/

theorem digitChar_toNat {m : Nat} (h : m < 10) : (Nat.digitChar m).toNat = 48 + m := by
  interval_cases m <;> rfl

theorem digitChar_ne_hyphen {m : Nat} (h : m < 10) : Nat.digitChar m ≠ '-' := by
  interval_cases m <;> decide

theorem toDigitsCore_ne_hyphen :
    ∀ (f n : Nat) (ds : List Char), (∀ c ∈ ds, c ≠ '-') →
      ∀ c ∈ Nat.toDigitsCore 10 f n ds, c ≠ '-' := by
  intro f
  induction f with
  | zero => intro n ds hds c hc; exact hds c hc
  | succ f ih =>
    intro n ds hds c hc
    simp only [Nat.toDigitsCore] at hc
    by_cases h0 : n / 10 = 0
    · simp only [h0, if_pos rfl] at hc
      rcases List.mem_cons.mp hc with h | h
      · subst h; exact digitChar_ne_hyphen (Nat.mod_lt _ (by omega))
      · exact hds c h
    · rw [if_neg h0] at hc
      refine ih (n / 10) _ ?_ c hc
      intro d hd
      rcases List.mem_cons.mp hd with h | h
      · subst h; exact digitChar_ne_hyphen (Nat.mod_lt _ (by omega))
      · exact hds d h

theorem repr_ne_hyphen (n : Nat) : ∀ c ∈ (Nat.repr n).data, c ≠ '-' := by
  intro c hc
  have : (Nat.repr n).data = Nat.toDigitsCore 10 (n + 1) n [] := rfl
  rw [this] at hc
  exact toDigitsCore_ne_hyphen (n + 1) n [] (by simp) c hc

theorem toDigitsCore_length_le :
    ∀ (f n : Nat) (ds : List Char), ds.length ≤ (Nat.toDigitsCore 10 f n ds).length := by
  intro f
  induction f with
  | zero => intro n ds; simp [Nat.toDigitsCore]
  | succ f ih =>
    intro n ds
    simp only [Nat.toDigitsCore]
    by_cases h0 : n / 10 = 0
    · simp [h0]
    · rw [if_neg h0]
      calc ds.length ≤ (Nat.digitChar (n % 10) :: ds).length := by simp
        _ ≤ _ := ih (n / 10) _

theorem repr_length_pos (n : Nat) : 1 ≤ (Nat.repr n).length := by
  have h : (Nat.repr n).length = (Nat.toDigitsCore 10 (n + 1) n []).length := rfl
  rw [h]
  simp only [Nat.toDigitsCore]
  by_cases h0 : n / 10 = 0
  · simp [h0]
  · rw [if_neg h0]
    calc 1 = ([Nat.digitChar (n % 10)] : List Char).length := rfl
      _ ≤ _ := toDigitsCore_length_le n (n / 10) _

theorem toDigitsCore_acc (n : Nat) :
    ∀ (f : Nat) (ds : List Char), n < f →
      Nat.toDigitsCore 10 f n ds = Nat.toDigits 10 n ++ ds := by
  induction n using Nat.strong_induction_on with
  | _ n ih =>
    intro f ds hf
    match f, hf with
    | f + 1, hf =>
      by_cases h0 : n / 10 = 0
      · simp [Nat.toDigitsCore, Nat.toDigits, h0]
      · have hlt : n / 10 < n := Nat.div_lt_self (by omega) (by omega)
        have l1 : Nat.toDigitsCore 10 (f + 1) n ds
            = Nat.toDigitsCore 10 f (n / 10) (Nat.digitChar (n % 10) :: ds) := by
          simp [Nat.toDigitsCore, h0]
        have l2 : Nat.toDigits 10 n
            = Nat.toDigitsCore 10 n (n / 10) [Nat.digitChar (n % 10)] := by
          simp [Nat.toDigits, Nat.toDigitsCore, h0]
        rw [l1, l2, ih (n / 10) hlt f _ (by omega), ih (n / 10) hlt n _ hlt]
        simp

theorem toDigits_unfold (n : Nat) :
    Nat.toDigits 10 n =
      if n < 10 then [Nat.digitChar n]
      else Nat.toDigits 10 (n / 10) ++ [Nat.digitChar (n % 10)] := by
  by_cases h : n < 10
  · have h0 : n / 10 = 0 := Nat.div_eq_of_lt h
    have hm : n % 10 = n := Nat.mod_eq_of_lt h
    simp [Nat.toDigits, Nat.toDigitsCore, h0, hm, h]
  · have h0 : n / 10 ≠ 0 := by
      intro hc
      exact h (by omega)
    have hlt : n / 10 < n := Nat.div_lt_self (by omega) (by omega)
    rw [if_neg h]
    have l1 : Nat.toDigits 10 n
        = Nat.toDigitsCore 10 n (n / 10) [Nat.digitChar (n % 10)] := by
      simp [Nat.toDigits, Nat.toDigitsCore, h0]
    rw [l1]
    exact toDigitsCore_acc (n / 10) n _ hlt

theorem toDigits_decode (n : Nat) :
    ∀ a : Nat, (Nat.toDigits 10 n).foldl decDigit a =
      a * 10 ^ (Nat.toDigits 10 n).length + n := by
  induction n using Nat.strong_induction_on with
  | _ n ih =>
    intro a
    rw [toDigits_unfold n]
    by_cases h : n < 10
    · simp [h, List.foldl, decDigit, digitChar_toNat h]
      omega
    · have hlt : n / 10 < n := Nat.div_lt_self (by omega) (by omega)
      rw [if_neg h, List.foldl_append, ih (n / 10) hlt a]
      simp only [List.foldl, decDigit, List.length_append, List.length_cons,
        List.length_nil]
      rw [digitChar_toNat (Nat.mod_lt _ (by omega))]
      have hmod : n % 10 + 10 * (n / 10) = n := Nat.mod_add_div n 10
      ring_nf
      omega

theorem repr_injective {m n : Nat} (h : Nat.repr m = Nat.repr n) : m = n := by
  have hd : Nat.toDigits 10 m = Nat.toDigits 10 n := by
    have : (Nat.repr m).data = (Nat.repr n).data := by rw [h]
    simpa [Nat.repr, List.asString] using this
  have hm := toDigits_decode m 0
  have hn := toDigits_decode n 0
  rw [hd] at hm
  rw [hm] at hn
  omega

/-! ## String-shape helper lemmas. -/

theorem append_hyphen_inj :
    ∀ (x₁ x₂ y₁ y₂ : List Char), (∀ c ∈ y₁, c ≠ '-') → (∀ c ∈ y₂, c ≠ '-') →
      x₁ ++ '-' :: y₁ = x₂ ++ '-' :: y₂ → x₁ = x₂ ∧ y₁ = y₂ := by
  intro x₁
  induction x₁ with
  | nil =>
    intro x₂ y₁ y₂ h₁ h₂ h
    match x₂ with
    | [] => simpa using h
    | c :: x₂ =>
      exfalso
      simp only [List.nil_append, List.cons_append, List.cons.injEq] at h
      exact h₁ '-' (h.2 ▸ List.mem_append_right _ (List.mem_cons_self _ _)) rfl
  | cons c x₁ ih =>
    intro x₂ y₁ y₂ h₁ h₂ h
    match x₂ with
    | [] =>
      exfalso
      simp only [List.cons_append, List.nil_append, List.cons.injEq] at h
      exact h₂ '-' (h.2 ▸ List.mem_append_right _ (List.mem_cons_self _ _)) rfl
    | d :: x₂ =>
      simp only [List.cons_append, List.cons.injEq] at h
      obtain ⟨hx, hy⟩ := ih x₂ y₁ y₂ h₁ h₂ h.2
      exact ⟨by rw [h.1, hx], hy⟩

theorem suffix_decomp {s₁ s₂ r₁ r₂ : String}
    (h₁ : ∀ c ∈ r₁.data, c ≠ '-') (h₂ : ∀ c ∈ r₂.data, c ≠ '-')
    (h : s₁ ++ "-" ++ r₁ = s₂ ++ "-" ++ r₂) : s₁ = s₂ ∧ r₁ = r₂ := by
  have hd : s₁.data ++ '-' :: r₁.data = s₂.data ++ '-' :: r₂.data := by
    have := congrArg String.data h
    simpa [String.data_append] using this
  obtain ⟨hx, hy⟩ := append_hyphen_inj _ _ _ _ h₁ h₂ hd
  exact ⟨String.ext hx, String.ext hy⟩

theorem ne_hyphen_repr (s t : String) (n : Nat) (hl : s.length ≤ t.length + 1) :
    s ≠ t ++ "-" ++ Nat.repr n := by
  intro h
  have hlen := congrArg String.length h
  have hone : ("-" : String).length = 1 := rfl
  simp only [String.length_append, hone] at hlen
  have := repr_length_pos n
  omega


/-! ## Registry (association list) lemmas. -/

theorem lookupC_updateC_self (m : List (String × Nat)) (k : String) (v : Nat) :
    lookupC (updateC m k v) k = some v := by
  induction m with
  | nil => simp [updateC, lookupC]
  | cons p rest ih =>
    by_cases h : p.1 = k
    · simp [updateC, h, lookupC]
    · simp only [updateC]
      rw [if_neg (by simpa using h)]
      simp only [lookupC]
      rw [if_neg h]
      exact ih

theorem lookupC_updateC_ne (m : List (String × Nat)) (k k' : String) (v : Nat)
    (h : k' ≠ k) : lookupC (updateC m k v) k' = lookupC m k' := by
  induction m with
  | nil =>
    show (if k = k' then some v else lookupC [] k') = lookupC [] k'
    rw [if_neg fun hc => h hc.symm]
  | cons p rest ih =>
    by_cases hp : p.1 = k
    · simp only [updateC]
      rw [if_pos (by simpa using hp)]
      simp only [lookupC]
      rw [if_neg (fun hc => h hc.symm), if_neg (by rw [hp]; exact fun hc => h hc.symm)]
    · simp only [updateC]
      rw [if_neg (by simpa using hp)]
      simp only [lookupC]
      by_cases hq : p.1 = k'
      · rw [if_pos hq, if_pos hq]
      · rw [if_neg hq, if_neg hq]
        exact ih

theorem updateC_keys (m : List (String × Nat)) (k : String) (v : Nat) :
    ∀ p ∈ updateC m k v, p.1 = k ∨ ∃ q ∈ m, p.1 = q.1 := by
  induction m with
  | nil => simp [updateC]
  | cons q rest ih =>
    intro p hp
    by_cases hq : q.1 = k
    · simp only [updateC] at hp
      rw [if_pos (by simpa using hq)] at hp
      rcases List.mem_cons.mp hp with h | h
      · left; rw [h]
      · right; exact ⟨p, List.mem_cons_of_mem _ h, rfl⟩
    · simp only [updateC] at hp
      rw [if_neg (by simpa using hq)] at hp
      rcases List.mem_cons.mp hp with h | h
      · right; exact ⟨q, List.mem_cons_self _ _, by rw [h]⟩
      · rcases ih p h with h1 | ⟨r, hr, h1⟩
        · left; exact h1
        · right; exact ⟨r, List.mem_cons_of_mem _ hr, h1⟩

theorem generate_unique_id_fresh {t : String} {m : List (String × Nat)}
    (h : lookupC m (sanitize_id t) = none) :
    generate_unique_id t m = (sanitize_id t, updateC m (sanitize_id t) 0) := by
  simp [generate_unique_id, h]

theorem generate_unique_id_present {t : String} {m : List (String × Nat)} {c : Nat}
    (h : lookupC m (sanitize_id t) = some c) :
    generate_unique_id t m =
      (sanitize_id t ++ "-" ++ Nat.repr (c + 1), updateC m (sanitize_id t) (c + 1)) := by
  simp [generate_unique_id, h]

/-! ## Branch characterizations of the scanner step. -/

theorem emitHeading_eq (n : Nat) (raw : List Char) (st : ScanState) :
    emitHeading n raw st =
      { st with
        frags := st.frags ++ [headingFrag n (clean_header_text (String.mk raw))
          (generate_unique_id (clean_header_text (String.mk raw)) st.id_counts).1]
        toc := st.toc ++ [⟨n, clean_header_text (String.mk raw),
          (generate_unique_id (clean_header_text (String.mk raw)) st.id_counts).1⟩]
        id_counts := (generate_unique_id (clean_header_text (String.mk raw)) st.id_counts).2 } :=
  rfl

theorem afterTables_heading (st : ScanState) (l : List Char) (n : Nat) (t : List Char)
    (h : headingMatch l = some (n, t)) : afterTables st l = emitHeading n t st := by
  simp [afterTables, h]

theorem afterTables_para (st : ScanState) (l : List Char)
    (h : headingMatch l = none) :
    afterTables st l = { st with frags := st.frags ++ paragraphFrags l } := by
  simp [afterTables, h]

theorem processLine_blank (st : ScanState) (line : String) (h : line.data = []) :
    processLine st line = st := by
  simp [processLine, h]

theorem processLine_hr (st : ScanState) (line : String) (h1 : line.data ≠ [])
    (h2 : isHorizontalRule line.data = true) :
    processLine st line = { st with frags := st.frags ++ ["<hr>\n"] } := by
  simp [processLine, h1, h2]

theorem processLine_fence_open (st : ScanState) (line : String) (lang : List Char)
    (h1 : line.data ≠ []) (h2 : isHorizontalRule line.data = false)
    (h3 : fenceMatch line.data = some lang) (h4 : st.in_code_block = false) :
    processLine st line =
      { st with
        in_code_block := true
        code_lang := String.mk lang
        frags := st.frags ++ ["<pre><code" ++
          (if lang = [] then "" else " class=\"language-" ++ String.mk lang ++ "\"") ++
          ">\n"] } := by
  simp [processLine, h1, h2, h3, h4]

theorem processLine_fence_close (st : ScanState) (line : String) (lang : List Char)
    (h1 : line.data ≠ []) (h2 : isHorizontalRule line.data = false)
    (h3 : fenceMatch line.data = some lang) (h4 : st.in_code_block = true) :
    processLine st line =
      { st with in_code_block := false, frags := st.frags ++ ["</code></pre>\n"] } := by
  simp [processLine, h1, h2, h3, h4]

theorem processLine_code (st : ScanState) (line : String) (h1 : line.data ≠ [])
    (h2 : isHorizontalRule line.data = false) (h3 : fenceMatch line.data = none)
    (h4 : st.in_code_block = true) :
    processLine st line = { st with frags := st.frags ++ [line ++ "\n"] } := by
  simp [processLine, h1, h2, h3, h4]

theorem processLine_divider_activate (st : ScanState) (line : String)
    (h1 : line.data ≠ []) (h2 : isHorizontalRule line.data = false)
    (h3 : fenceMatch line.data = none) (h4 : st.in_code_block = false)
    (h5 : isTableDivider line.data = true) (h6 : st.in_table = false)
    (h7 : st.table_rows ≠ []) :
    processLine st line = { st with in_table := true } := by
  simp [processLine, h1, h2, h3, h4, h5, h6, h7]

theorem processLine_divider_fall (st : ScanState) (line : String)
    (h1 : line.data ≠ []) (h2 : isHorizontalRule line.data = false)
    (h3 : fenceMatch line.data = none) (h4 : st.in_code_block = false)
    (h5 : isTableDivider line.data = true)
    (h6 : ¬(st.in_table = false ∧ st.table_rows ≠ [])) :
    processLine st line = afterTables st line.data := by
  simp [processLine, h1, h2, h3, h4, h5, h6]

theorem processLine_row (st : ScanState) (line : String)
    (h1 : line.data ≠ []) (h2 : isHorizontalRule line.data = false)
    (h3 : fenceMatch line.data = none) (h4 : st.in_code_block = false)
    (h5 : isTableDivider line.data = false) (h6 : line.data.contains '|' = true) :
    processLine st line = { st with table_rows := st.table_rows ++ [parseTableRow line.data] } := by
  have h6a : '|' ∈ line.data := by simpa using h6
  simp [processLine, h1, h2, h3, h4, h5, h6a]

theorem processLine_flush (st : ScanState) (line : String)
    (h1 : line.data ≠ []) (h2 : isHorizontalRule line.data = false)
    (h3 : fenceMatch line.data = none) (h4 : st.in_code_block = false)
    (h5 : isTableDivider line.data = false) (h6 : line.data.contains '|' = false)
    (h7 : st.in_table = true) :
    processLine st line = afterTables { st with
      frags := st.frags ++ [midTableHtml st.table_rows]
      table_rows := []
      in_table := false } line.data := by
  have h6a : '|' ∉ line.data := by simpa using h6
  simp [processLine, h1, h2, h3, h4, h5, h6a, h7]

theorem processLine_plain (st : ScanState) (line : String)
    (h1 : line.data ≠ []) (h2 : isHorizontalRule line.data = false)
    (h3 : fenceMatch line.data = none) (h4 : st.in_code_block = false)
    (h5 : isTableDivider line.data = false) (h6 : line.data.contains '|' = false)
    (h7 : st.in_table = false) :
    processLine st line = afterTables st line.data := by
  have h6a : '|' ∉ line.data := by simpa using h6
  simp [processLine, h1, h2, h3, h4, h5, h6a, h7]


/-! ## Line-category facts. -/

theorem isHorizontalRule_chars {l : List Char} (h : isHorizontalRule l = true) :
    ∀ c ∈ l, wsChar c = true ∨ hrBody c = true := by
  simp only [isHorizontalRule, Bool.and_eq_true] at h
  intro c hc
  rw [← List.takeWhile_append_dropWhile (p := wsChar) (l := l)] at hc
  rcases List.mem_append.mp hc with hws | ht
  · exact Or.inl (List.mem_takeWhile_imp hws)
  · rw [← List.takeWhile_append_dropWhile (p := hrBody) (l := l.dropWhile wsChar)] at ht
    rcases List.mem_append.mp ht with h1 | h1
    · exact Or.inr (List.mem_takeWhile_imp h1)
    · exact Or.inl (List.all_eq_true.mp h.2 c h1)

theorem dividerBody_chars {t1 : List Char} (h : dividerBody t1 = true) :
    ∀ c ∈ t1, wsChar c = true ∨ dashColon c = true ∨ c = '|' := by
  simp only [dividerBody] at h
  split at h
  case h_2 => exact absurd h (by simp)
  case h_1 rest heq =>
    intro c hc
    rw [← List.takeWhile_append_dropWhile (p := dashColon) (l := t1), heq] at hc
    rcases List.mem_append.mp hc with h1 | h1
    · exact Or.inr (Or.inl (List.mem_takeWhile_imp h1))
    · rcases List.mem_cons.mp h1 with h2 | h2
      · exact Or.inr (Or.inr h2)
      · simp only [Bool.and_eq_true] at h
        have := List.all_eq_true.mp h.2.2 c h2
        simp only [dividerTail, Bool.or_eq_true, decide_eq_true_eq] at this
        rcases this with ((h3 | h3) | h3) | h3
        · exact Or.inr (Or.inl (by simp [dashColon, h3]))
        · exact Or.inr (Or.inl (by simp [dashColon, h3]))
        · exact Or.inl h3
        · exact Or.inr (Or.inr h3)

theorem mem_of_mem_stripBar {t : List Char} {c : Char} (h : c ∈ stripBar t) : c ∈ t := by
  unfold stripBar at h
  split at h
  · exact List.mem_cons_of_mem _ h
  · exact h

theorem isTableDivider_chars {l : List Char} (h : isTableDivider l = true) :
    ∀ c ∈ l, wsChar c = true ∨ dashColon c = true ∨ c = '|' := by
  simp only [isTableDivider] at h
  intro c hc
  rw [← List.takeWhile_append_dropWhile (p := wsChar) (l := l)] at hc
  rcases List.mem_append.mp hc with hws | ht
  · exact Or.inl (List.mem_takeWhile_imp hws)
  · have hsb : c ∈ stripBar (l.dropWhile wsChar) ∨ c = '|' := by
      unfold stripBar
      split
      case h_1 r heq =>
        rw [heq] at ht
        rcases List.mem_cons.mp ht with h1 | h1
        · exact Or.inr h1
        · exact Or.inl h1
      case h_2 => exact Or.inl ht
    rcases hsb with hsb | hsb
    · exact dividerBody_chars h c hsb
    · exact Or.inr (Or.inr hsb)

theorem isTableDivider_mem_pipe {l : List Char} (h : isTableDivider l = true) : '|' ∈ l := by
  simp only [isTableDivider] at h
  simp only [dividerBody] at h
  split at h
  case h_2 => exact absurd h (by simp)
  case h_1 rest heq =>
    have h1 : '|' ∈ stripBar (l.dropWhile wsChar) := by
      rw [← List.takeWhile_append_dropWhile (p := dashColon)
        (l := stripBar (l.dropWhile wsChar)), heq]
      exact List.mem_append_right _ (List.mem_cons_self _ _)
    have h2 : '|' ∈ l.dropWhile wsChar := mem_of_mem_stripBar h1
    rw [← List.takeWhile_append_dropWhile (p := wsChar) (l := l)]
    exact List.mem_append_right _ h2

theorem isTableDivider_ne_nil {l : List Char} (h : isTableDivider l = true) : l ≠ [] := by
  intro hl
  subst hl
  exact absurd h (by decide)

theorem headingMatch_head {l : List Char} {n : Nat} {t : List Char}
    (h : headingMatch l = some (n, t)) : ∃ r, l = '#' :: r := by
  match l with
  | [] =>
    exfalso
    have h0 : headingMatch ([] : List Char) = none := rfl
    rw [h0] at h
    exact Option.noConfusion h
  | c :: r =>
    by_cases hc : c = '#'
    · exact ⟨r, by rw [hc]⟩
    · exfalso
      have h0 : ((c :: r).takeWhile fun d => d = '#') = [] := by
        simp [List.takeWhile_cons, hc]
      simp only [headingMatch, h0] at h
      simp at h

/-- The character classes of the heading, rule, fence and divider categories
are mutually exclusive at the first character. -/
theorem headingMatch_not_hr {l : List Char} {n : Nat} {t : List Char}
    (h : headingMatch l = some (n, t)) : isHorizontalRule l = false := by
  obtain ⟨r, rfl⟩ := headingMatch_head h
  by_contra hc
  have hc : isHorizontalRule ('#' :: r) = true := by
    revert hc
    cases isHorizontalRule ('#' :: r) <;> simp
  have := isHorizontalRule_chars hc '#' (List.mem_cons_self _ _)
  revert this
  decide

theorem headingMatch_not_fence {l : List Char} {n : Nat} {t : List Char}
    (h : headingMatch l = some (n, t)) : fenceMatch l = none := by
  obtain ⟨r, rfl⟩ := headingMatch_head h
  match r with
  | [] => rfl
  | [c] => rfl
  | c :: d :: r => simp [fenceMatch]

theorem headingMatch_not_divider {l : List Char} {n : Nat} {t : List Char}
    (h : headingMatch l = some (n, t)) : isTableDivider l = false := by
  obtain ⟨r, rfl⟩ := headingMatch_head h
  by_contra hc
  have hc : isTableDivider ('#' :: r) = true := by
    revert hc
    cases isTableDivider ('#' :: r) <;> simp
  have := isTableDivider_chars hc '#' (List.mem_cons_self _ _)
  revert this
  decide

theorem headingMatch_ne_nil {l : List Char} {n : Nat} {t : List Char}
    (h : headingMatch l = some (n, t)) : l ≠ [] := by
  obtain ⟨r, rfl⟩ := headingMatch_head h
  exact List.cons_ne_nil _ _

theorem isTableDivider_not_hr {l : List Char} (h : isTableDivider l = true) :
    isHorizontalRule l = false := by
  by_contra hc
  have hc : isHorizontalRule l = true := by
    revert hc
    cases isHorizontalRule l <;> simp
  have h1 := isHorizontalRule_chars hc '|' (isTableDivider_mem_pipe h)
  revert h1
  decide

theorem isTableDivider_not_fence {l : List Char} (h : isTableDivider l = true) :
    fenceMatch l = none := by
  match hl : l with
  | [] => rfl
  | [c] => rfl
  | [c, d] => rfl
  | c :: d :: e :: r =>
    simp only [fenceMatch]
    rw [if_neg]
    intro hcde
    have h1 := isTableDivider_chars h c (List.mem_cons_self _ _)
    rw [hcde.1] at h1
    revert h1
    decide

theorem isTableDivider_not_heading {l : List Char} (h : isTableDivider l = true) :
    headingMatch l = none := by
  rcases hm : headingMatch l with _ | ⟨n, t⟩
  · rfl
  · exfalso
    obtain ⟨r, rfl⟩ := headingMatch_head hm
    have h1 := isTableDivider_chars h '#' (List.mem_cons_self _ _)
    revert h1
    decide

/-! ## The inline substitutions leave trigger-free lines unchanged. -/

theorem linkAux_id : ∀ (f : Nat) (l : List Char), '[' ∉ l → linkAux f l = l := by
  intro f
  induction f with
  | zero => intro l _; rfl
  | succ f ih =>
    intro l hl
    match l with
    | [] => rfl
    | c :: rest =>
      have hc : ¬(c = '[') := fun h => hl (h ▸ List.mem_cons_self _ _)
      have hrest : '[' ∉ rest := fun h => hl (List.mem_cons_of_mem _ h)
      simp only [linkAux]
      rw [if_neg hc, ih rest hrest]

theorem boldAux_id : ∀ (f : Nat) (l : List Char), '*' ∉ l → boldAux f l = l := by
  intro f
  induction f with
  | zero => intro l _; rfl
  | succ f ih =>
    intro l hl
    match l with
    | [] => rfl
    | c :: rest =>
      have hc : ¬(c = '*') := fun h => hl (h ▸ List.mem_cons_self _ _)
      have hrest : '*' ∉ rest := fun h => hl (List.mem_cons_of_mem _ h)
      simp only [boldAux]
      rw [if_neg hc, ih rest hrest]

theorem italicAux_id : ∀ (f : Nat) (l : List Char), '*' ∉ l → italicAux f l = l := by
  intro f
  induction f with
  | zero => intro l _; rfl
  | succ f ih =>
    intro l hl
    match l with
    | [] => rfl
    | c :: rest =>
      have hc : ¬(c = '*') := fun h => hl (h ▸ List.mem_cons_self _ _)
      have hrest : '*' ∉ rest := fun h => hl (List.mem_cons_of_mem _ h)
      simp only [italicAux]
      rw [if_neg hc, ih rest hrest]

theorem codeAux_id : ∀ (f : Nat) (l : List Char), Char.ofNat 96 ∉ l → codeAux f l = l := by
  intro f
  induction f with
  | zero => intro l _; rfl
  | succ f ih =>
    intro l hl
    match l with
    | [] => rfl
    | c :: rest =>
      have hc : ¬(c = Char.ofNat 96) := fun h => hl (h ▸ List.mem_cons_self _ _)
      have hrest : Char.ofNat 96 ∉ rest := fun h => hl (List.mem_cons_of_mem _ h)
      simp only [codeAux]
      rw [if_neg hc, ih rest hrest]

theorem inlineParagraph_id {l : List Char} (h1 : '[' ∉ l) (h2 : '*' ∉ l)
    (h3 : Char.ofNat 96 ∉ l) : inlineParagraph l = l := by
  unfold inlineParagraph replaceLinks replaceBold replaceItalic replaceCode
  rw [linkAux_id _ _ h1]
  rw [boldAux_id _ _ h2]
  rw [italicAux_id _ _ h2]
  rw [codeAux_id _ _ h3]


/-! ## Step dichotomy: a scanner step either leaves the heading data
(`toc`, `id_counts`) untouched and appends output, or is a heading step. -/

theorem afterTables_cases (st : ScanState) (l : List Char) :
    ((afterTables st l).toc = st.toc ∧ (afterTables st l).id_counts = st.id_counts ∧
      ∃ δ, (afterTables st l).frags = st.frags ++ δ) ∨
    ∃ n t, afterTables st l = emitHeading n t st := by
  rcases h : headingMatch l with _ | ⟨n, t⟩
  · left
    rw [afterTables_para st l h]
    exact ⟨rfl, rfl, paragraphFrags l, rfl⟩
  · right
    exact ⟨n, t, afterTables_heading st l n t h⟩

theorem processLines_cons (st : ScanState) (l : String) (ls : List String) :
    processLines st (l :: ls) = processLines (processLine st l) ls := rfl

theorem processLine_cases (st : ScanState) (line : String) :
    ((processLine st line).toc = st.toc ∧ (processLine st line).id_counts = st.id_counts ∧
      ∃ δ, (processLine st line).frags = st.frags ++ δ) ∨
    (∃ n t st₁, st₁.toc = st.toc ∧ st₁.id_counts = st.id_counts ∧
      (∃ δ, st₁.frags = st.frags ++ δ) ∧ processLine st line = emitHeading n t st₁) := by
  by_cases h1 : line.data = []
  · left
    rw [processLine_blank st line h1]
    exact ⟨rfl, rfl, [], by simp⟩
  by_cases h2 : isHorizontalRule line.data = true
  · left
    rw [processLine_hr st line h1 h2]
    exact ⟨rfl, rfl, _, rfl⟩
  replace h2 : isHorizontalRule line.data = false := by simpa using h2
  rcases h3 : fenceMatch line.data with _ | lang
  swap
  · by_cases h4 : st.in_code_block = true
    · left
      rw [processLine_fence_close st line lang h1 h2 h3 h4]
      exact ⟨rfl, rfl, _, rfl⟩
    · replace h4 : st.in_code_block = false := by simpa using h4
      left
      rw [processLine_fence_open st line lang h1 h2 h3 h4]
      exact ⟨rfl, rfl, _, rfl⟩
  by_cases h4 : st.in_code_block = true
  · left
    rw [processLine_code st line h1 h2 h3 h4]
    exact ⟨rfl, rfl, _, rfl⟩
  replace h4 : st.in_code_block = false := by simpa using h4
  by_cases h5 : isTableDivider line.data = true
  · by_cases h6 : st.in_table = false ∧ st.table_rows ≠ []
    · left
      rw [processLine_divider_activate st line h1 h2 h3 h4 h5 h6.1 h6.2]
      exact ⟨rfl, rfl, [], by simp⟩
    · rw [processLine_divider_fall st line h1 h2 h3 h4 h5 h6]
      rcases afterTables_cases st line.data with ⟨ha, hb, hc⟩ | ⟨n, t, he⟩
      · left
        exact ⟨ha, hb, hc⟩
      · right
        exact ⟨n, t, st, rfl, rfl, ⟨[], by simp⟩, he⟩
  replace h5 : isTableDivider line.data = false := by simpa using h5
  by_cases h6 : line.data.contains '|' = true
  · left
    rw [processLine_row st line h1 h2 h3 h4 h5 h6]
    exact ⟨rfl, rfl, [], by simp⟩
  replace h6 : line.data.contains '|' = false := by simpa using h6
  by_cases h7 : st.in_table = true
  · rw [processLine_flush st line h1 h2 h3 h4 h5 h6 h7]
    rcases afterTables_cases { st with
        frags := st.frags ++ [midTableHtml st.table_rows]
        table_rows := []
        in_table := false } line.data with ⟨ha, hb, ⟨δ, hc⟩⟩ | ⟨n, t, he⟩
    · left
      refine ⟨ha, hb, [midTableHtml st.table_rows] ++ δ, ?_⟩
      rw [hc]
      simp
    · right
      exact ⟨n, t, { st with
        frags := st.frags ++ [midTableHtml st.table_rows]
        table_rows := []
        in_table := false }, rfl, rfl, ⟨[midTableHtml st.table_rows], rfl⟩, he⟩
  replace h7 : st.in_table = false := by simpa using h7
  rw [processLine_plain st line h1 h2 h3 h4 h5 h6 h7]
  rcases afterTables_cases st line.data with ⟨ha, hb, hc⟩ | ⟨n, t, he⟩
  · left
    exact ⟨ha, hb, hc⟩
  · right
    exact ⟨n, t, st, rfl, rfl, ⟨[], by simp⟩, he⟩

theorem processLine_toc_mono (st : ScanState) (line : String) :
    ∃ δ, (processLine st line).toc = st.toc ++ δ := by
  rcases processLine_cases st line with ⟨ha, _, _⟩ | ⟨n, t, st₁, ha, _, _, he⟩
  · exact ⟨[], by simp [ha]⟩
  · refine ⟨[⟨n, clean_header_text (String.mk t),
      (generate_unique_id (clean_header_text (String.mk t)) st₁.id_counts).1⟩], ?_⟩
    rw [he, emitHeading_eq]
    simp [ha]

theorem processLines_toc_mono (lines : List String) (st : ScanState) :
    ∃ δ, (processLines st lines).toc = st.toc ++ δ := by
  induction lines generalizing st with
  | nil => exact ⟨[], by simp [processLines]⟩
  | cons l ls ih =>
    rcases processLine_toc_mono st l with ⟨δ₁, h₁⟩
    rcases ih (processLine st l) with ⟨δ₂, h₂⟩
    refine ⟨δ₁ ++ δ₂, ?_⟩
    rw [processLines_cons, h₂, h₁, List.append_assoc]

theorem processLine_frags_mono (st : ScanState) (line : String) :
    ∃ δ, (processLine st line).frags = st.frags ++ δ := by
  rcases processLine_cases st line with ⟨_, _, hd⟩ | ⟨n, t, st₁, _, _, ⟨δ, hd⟩, he⟩
  · exact hd
  · refine ⟨δ ++ [headingFrag n (clean_header_text (String.mk t))
      (generate_unique_id (clean_header_text (String.mk t)) st₁.id_counts).1], ?_⟩
    rw [he, emitHeading_eq]
    simp [hd]


/-! ## The id-uniqueness invariant is preserved by the scanner. -/

theorem emitHeading_IdInv (n : Nat) (raw : List Char) (st : ScanState)
    (hinv : IdInv st.id_counts st.toc)
    (H : ∀ e ∈ st.toc, ∀ k : Nat, 1 ≤ k →
      sanitize_id (clean_header_text (String.mk raw)) ≠
        sanitize_id e.text ++ "-" ++ Nat.repr k ∧
      sanitize_id e.text ≠
        sanitize_id (clean_header_text (String.mk raw)) ++ "-" ++ Nat.repr k) :
    IdInv (emitHeading n raw st).id_counts (emitHeading n raw st).toc := by
  rcases hinv with ⟨hc1, hc2⟩
  set txt := clean_header_text (String.mk raw) with htxt
  rw [emitHeading_eq]
  rcases hl : lookupC st.id_counts (sanitize_id txt) with _ | c
  · rw [generate_unique_id_fresh hl]
    refine ⟨?_, ?_⟩
    · intro e he
      rcases List.mem_append.mp he with he | he
      · obtain ⟨ce, hcl, hid⟩ := hc1 e he
        have hkey : entryKey e ≠ sanitize_id txt := by
          intro hk
          rw [hk, hl] at hcl
          exact Option.noConfusion hcl
        refine ⟨ce, ?_, hid⟩
        rw [lookupC_updateC_ne _ _ _ _ hkey]
        exact hcl
      · rcases List.mem_singleton.mp he with rfl
        exact ⟨0, lookupC_updateC_self _ _ _, Or.inl rfl⟩
    · rw [List.map_append, List.nodup_append]
      refine ⟨hc2, by simp, ?_⟩
      intro x hx hx2
      have hx2 : x = sanitize_id txt := by simpa using hx2
      obtain ⟨e, he, rfl⟩ := List.mem_map.mp hx
      obtain ⟨ce, hcl, hid⟩ := hc1 e he
      rcases hid with hid | ⟨k, hk1, hk2, hid⟩
      · rw [hid] at hx2
        rw [hx2, hl] at hcl
        exact Option.noConfusion hcl
      · rw [hid] at hx2
        exact (H e he k hk1).1 hx2.symm
  · rw [generate_unique_id_present hl]
    refine ⟨?_, ?_⟩
    · intro e he
      rcases List.mem_append.mp he with he | he
      · obtain ⟨ce, hcl, hid⟩ := hc1 e he
        by_cases hkey : entryKey e = sanitize_id txt
        · have hce : ce = c := by
            rw [hkey, hl] at hcl
            exact (Option.some.inj hcl).symm
          refine ⟨c + 1, by rw [hkey]; exact lookupC_updateC_self _ _ _, ?_⟩
          rcases hid with hid | ⟨k, hk1, hk2, hid⟩
          · exact Or.inl hid
          · exact Or.inr ⟨k, hk1, by omega, hid⟩
        · refine ⟨ce, ?_, hid⟩
          rw [lookupC_updateC_ne _ _ _ _ hkey]
          exact hcl
      · rcases List.mem_singleton.mp he with rfl
        exact ⟨c + 1, lookupC_updateC_self _ _ _,
          Or.inr ⟨c + 1, by omega, le_refl _, rfl⟩⟩
    · rw [List.map_append, List.nodup_append]
      refine ⟨hc2, by simp, ?_⟩
      intro x hx hx2
      have hx2 : x = sanitize_id txt ++ "-" ++ Nat.repr (c + 1) := by simpa using hx2
      obtain ⟨e, he, rfl⟩ := List.mem_map.mp hx
      obtain ⟨ce, hcl, hid⟩ := hc1 e he
      rcases hid with hid | ⟨k, hk1, hk2, hid⟩
      · rw [hid] at hx2
        exact (H e he (c + 1) (by omega)).2 hx2
      · rw [hid] at hx2
        obtain ⟨hb, hr⟩ := suffix_decomp (repr_ne_hyphen k) (repr_ne_hyphen (c + 1)) hx2
        have hk : k = c + 1 := repr_injective hr
        have hce : ce = c := by
          rw [hb, hl] at hcl
          exact (Option.some.inj hcl).symm
        omega

theorem processLine_IdInv (st : ScanState) (line : String)
    (hinv : IdInv st.id_counts st.toc)
    (H : ∀ e₁ ∈ (processLine st line).toc, ∀ e₂ ∈ (processLine st line).toc, ∀ k : Nat,
      1 ≤ k → sanitize_id e₁.text ≠ sanitize_id e₂.text ++ "-" ++ Nat.repr k) :
    IdInv (processLine st line).id_counts (processLine st line).toc := by
  rcases processLine_cases st line with ⟨ha, hb, _⟩ | ⟨n, t, st₁, ha, hb, _, he⟩
  · rw [ha, hb]
    exact hinv
  · rw [he]
    have hinv₁ : IdInv st₁.id_counts st₁.toc := by
      rw [ha, hb]
      exact hinv
    refine emitHeading_IdInv n t st₁ hinv₁ ?_
    intro e he₂ k hk
    have hmem_e : e ∈ (processLine st line).toc := by
      rw [he, emitHeading_eq]
      exact List.mem_append_left _ he₂
    have hmem_new : (⟨n, clean_header_text (String.mk t),
        (generate_unique_id (clean_header_text (String.mk t)) st₁.id_counts).1⟩ : TocEntry) ∈
        (processLine st line).toc := by
      rw [he, emitHeading_eq]
      exact List.mem_append_right _ (List.mem_singleton_self _)
    exact ⟨H _ hmem_new _ hmem_e k hk, H _ hmem_e _ hmem_new k hk⟩

theorem processLines_IdInv (lines : List String) (st : ScanState)
    (hinv : IdInv st.id_counts st.toc)
    (H : ∀ e₁ ∈ (processLines st lines).toc, ∀ e₂ ∈ (processLines st lines).toc, ∀ k : Nat,
      1 ≤ k → sanitize_id e₁.text ≠ sanitize_id e₂.text ++ "-" ++ Nat.repr k) :
    IdInv (processLines st lines).id_counts (processLines st lines).toc := by
  induction lines generalizing st with
  | nil => exact hinv
  | cons l ls ih =>
    rw [processLines_cons] at H ⊢
    refine ih (processLine st l) ?_ H
    refine processLine_IdInv st l hinv ?_
    intro e₁ h₁ e₂ h₂ k hk
    rcases processLines_toc_mono ls (processLine st l) with ⟨δ, hδ⟩
    exact H e₁ (by rw [hδ]; exact List.mem_append_left _ h₁)
      e₂ (by rw [hδ]; exact List.mem_append_left _ h₂) k hk

theorem markdown_toc (md : String) :
    (markdown_to_html md).toc = (processLines initState (getLines md)).toc := by
  simp only [markdown_to_html]
  split <;> rfl


/-! ## The two table-flush code sites render identically. -/

theorem tableRows_mid_eq_end : ∀ (rows : List (List String)) (b : Bool),
    tableRowsMid b rows = tableRowsEnd b rows := by
  intro rows
  induction rows with
  | nil => intro b; rfl
  | cons r rs ih =>
    intro b
    simp only [tableRowsMid, tableRowsEnd]
    by_cases hr : r = []
    · rw [if_pos hr, if_pos hr, ih]
    · rw [if_neg hr, if_neg hr, ih]

/-! ## TOC fragment shapes and counting. -/

theorem liFrag_length (e : TocEntry) :
    (liFrag e).length = 37 + (e.id.length + e.id.length + e.text.length) := by
  have h1 : ("<li><a href=\"#" : String).length = 14 := rfl
  have h2 : ("\" data-id=\"" : String).length = 11 := rfl
  have h3 : ("\">" : String).length = 2 := rfl
  have h4 : ("</a></li>\n" : String).length = 10 := rfl
  simp only [liFrag, String.length_append, h1, h2, h3, h4]
  omega

theorem liFrag_ne_openUl (e : TocEntry) : liFrag e ≠ openUl := by
  intro h
  have h2 := congrArg String.length h
  rw [liFrag_length, show (openUl : String).length = 5 from rfl] at h2
  omega

theorem liFrag_ne_closeUl (e : TocEntry) : liFrag e ≠ closeUl := by
  intro h
  have h2 := congrArg String.length h
  rw [liFrag_length, show (closeUl : String).length = 6 from rfl] at h2
  omega

theorem tocBody_count (es : List TocEntry) : ∀ cur : Nat, 1 ≤ cur →
    (∀ e ∈ es, 1 ≤ e.level) →
    (tocBody cur es).count openUl + (cur - 1) = (tocBody cur es).count closeUl := by
  induction es with
  | nil =>
    intro cur h1 _
    simp only [tocBody, List.count_replicate]
    have hoc : (closeUl == openUl) = false := by decide
    have hcc : (closeUl == closeUl) = true := by decide
    rw [hoc, hcc]
    simp
  | cons e es ih =>
    intro cur h1 hall
    have hl : 1 ≤ e.level := hall e (List.mem_cons_self _ _)
    have ihe := ih e.level hl (fun f hf => hall f (List.mem_cons_of_mem _ hf))
    simp only [tocBody, List.count_append, List.count_replicate, List.count_cons,
      List.count_nil]
    have hoo : (openUl == openUl) = true := by decide
    have hoc : (closeUl == openUl) = false := by decide
    have hco : (openUl == closeUl) = false := by decide
    have hcc : (closeUl == closeUl) = true := by decide
    have hlo : (liFrag e == openUl) = false := by
      simp only [beq_eq_false_iff_ne, ne_eq]
      exact liFrag_ne_openUl e
    have hlc : (liFrag e == closeUl) = false := by
      simp only [beq_eq_false_iff_ne, ne_eq]
      exact liFrag_ne_closeUl e
    rw [hoo, hoc, hco, hcc, hlo, hlc]
    simp only [Bool.false_eq_true, if_false, eq_self_iff_true, if_true]
    omega

theorem liFrag_mem_tocBody {e : TocEntry} : ∀ (toc : List TocEntry) (cur : Nat), e ∈ toc →
    liFrag e ∈ tocBody cur toc := by
  intro toc
  induction toc with
  | nil => intro cur h; exact absurd h (List.not_mem_nil e)
  | cons f fs ih =>
    intro cur h
    rcases List.mem_cons.mp h with rfl | h
    · simp only [tocBody]
      exact List.mem_append_left _ (List.mem_append_right _ (List.mem_singleton_self _))
    · simp only [tocBody]
      exact List.mem_append_right _ (ih f.level h)

/-! ## Every heading record has its element in the emitted body. -/

theorem processLine_headingFrag_inv (st : ScanState) (line : String)
    (hinv : ∀ e ∈ st.toc, headingFrag e.level e.text e.id ∈ st.frags) :
    ∀ e ∈ (processLine st line).toc,
      headingFrag e.level e.text e.id ∈ (processLine st line).frags := by
  rcases processLine_cases st line with ⟨ha, _, ⟨δ, hd⟩⟩ | ⟨n, t, st₁, ha, hb, ⟨δ, hd⟩, he⟩
  · intro e he₂
    rw [ha] at he₂
    rw [hd]
    exact List.mem_append_left _ (hinv e he₂)
  · intro e he₂
    rw [he, emitHeading_eq] at he₂ ⊢
    rcases List.mem_append.mp he₂ with h | h
    · rw [ha] at h
      refine List.mem_append_left _ ?_
      rw [hd]
      exact List.mem_append_left _ (hinv e h)
    · rcases List.mem_singleton.mp h with rfl
      exact List.mem_append_right _ (List.mem_singleton_self _)

theorem processLines_headingFrag_inv (lines : List String) (st : ScanState)
    (hinv : ∀ e ∈ st.toc, headingFrag e.level e.text e.id ∈ st.frags) :
    ∀ e ∈ (processLines st lines).toc,
      headingFrag e.level e.text e.id ∈ (processLines st lines).frags := by
  induction lines generalizing st with
  | nil => exact hinv
  | cons l ls ih =>
    rw [processLines_cons]
    exact ih (processLine st l) (processLine_headingFrag_inv st l hinv)

theorem markdown_frags_sup (md : String) :
    ∃ δ, (markdown_to_html md).frags = (processLines initState (getLines md)).frags ++ δ := by
  simp only [markdown_to_html]
  split
  · exact ⟨[endTableHtml (processLines initState (getLines md)).table_rows], rfl⟩
  · exact ⟨[], by simp⟩

/-! ## CLI loop facts. -/

theorem parseLoop_no_help : ∀ (n : Nat) (args : List String), args.length ≤ n →
    "-h" ∉ args → "--help" ∉ args → ∀ m o : String,
    (parseLoop args m o).2.2 = none := by
  intro n
  induction n with
  | zero =>
    intro args hlen _ _ m o
    match args, hlen with
    | [], _ => rfl
  | succ n ih =>
    intro args hlen h1 h2 m o
    cases args with
    | nil => rfl
    | cons arg rest =>
      have harg : ¬(arg = "-h" ∨ arg = "--help") := by
        rintro (rfl | rfl)
        · exact h1 (List.mem_cons_self _ _)
        · exact h2 (List.mem_cons_self _ _)
      have hrest1 : "-h" ∉ rest := fun hm => h1 (List.mem_cons_of_mem _ hm)
      have hrest2 : "--help" ∉ rest := fun hm => h2 (List.mem_cons_of_mem _ hm)
      have hlen2 : rest.length ≤ n := by
        simp only [List.length_cons] at hlen
        omega
      unfold parseLoop
      rw [if_neg harg]
      by_cases hm1 : (arg = "-m" ∨ arg = "--markdown") ∧ rest ≠ []
      · rw [if_pos hm1]
        rcases hr : rest with _ | ⟨v, rest2⟩
        · exact absurd hr hm1.2
        · subst hr
          have hlen3 : rest2.length ≤ n := by
            simp only [List.length_cons] at hlen2
            omega
          exact ih rest2 hlen3
            (fun hm => hrest1 (List.mem_cons_of_mem _ hm))
            (fun hm => hrest2 (List.mem_cons_of_mem _ hm)) v o
      · rw [if_neg hm1]
        by_cases hm2 : (arg = "-o" ∨ arg = "--output") ∧ rest ≠ []
        · rw [if_pos hm2]
          rcases hr : rest with _ | ⟨v, rest2⟩
          · exact absurd hr hm2.2
          · subst hr
            have hlen3 : rest2.length ≤ n := by
              simp only [List.length_cons] at hlen2
              omega
            exact ih rest2 hlen3
              (fun hm => hrest1 (List.mem_cons_of_mem _ hm))
              (fun hm => hrest2 (List.mem_cons_of_mem _ hm)) m v
        · rw [if_neg hm2]
          exact ih rest hlen2 hrest1 hrest2 m o

theorem runMain_parse_fail (args : List String) (fs : String → Option String)
    (h : (parse_args args).ok = false) :
    runMain args fs = ⟨1, (parse_args args).events, []⟩ := by
  simp [runMain, h]


/-! ## Claim theorems. -/

/-- C1 (counterexample): heading texts `a`, `a`, `a-1` receive ids
`a`, `a-1`, `a-1` — the third heading's sanitized text collides with the
suffixed id generated for the second, so ids are not unique. -/
theorem C1_counterexample :
    (markdown_to_html "# a\n# a\n# a-1\n").toc.map TocEntry.id = ["a", "a-1", "a-1"] ∧
    ¬ ((markdown_to_html "# a\n# a\n# a-1\n").toc.map TocEntry.id).Nodup := by
  exact ⟨rfl, by decide⟩

/-- C1 (amended): every heading id emitted by the scanner is unique within
the document, provided no heading's sanitized text equals another
sanitized heading text extended by a `-N` suffix with `N ≥ 1` (duplicate
heading texts still produce `base`, `base-1`, `base-2`, …, but such a
suffixed form can collide with a heading whose own text sanitizes to it). -/
theorem C1_unique_ids (md : String)
    (H : ∀ e₁ ∈ (markdown_to_html md).toc, ∀ e₂ ∈ (markdown_to_html md).toc,
      ∀ k : Nat, 1 ≤ k → sanitize_id e₁.text ≠ sanitize_id e₂.text ++ "-" ++ Nat.repr k) :
    ((markdown_to_html md).toc.map TocEntry.id).Nodup := by
  rw [markdown_toc] at H ⊢
  refine (processLines_IdInv (getLines md) initState ?_ H).2
  exact ⟨fun e he => absurd he (List.not_mem_nil e), List.nodup_nil⟩

theorem C1_unique_ids_witness :
    ((markdown_to_html "# A\n## B\n# A\n").toc.map TocEntry.id).Nodup := by
  refine C1_unique_ids "# A\n## B\n# A\n" ?_
  intro e₁ h₁ e₂ h₂ k hk
  have htoc : (markdown_to_html "# A\n## B\n# A\n").toc =
      [⟨1, "A", "a"⟩, ⟨2, "B", "b"⟩, ⟨1, "A", "a-1"⟩] := rfl
  rw [htoc] at h₁ h₂
  have hs : ∀ e ∈ ([⟨1, "A", "a"⟩, ⟨2, "B", "b"⟩, ⟨1, "A", "a-1"⟩] : List TocEntry),
      (sanitize_id e.text).length = 1 := by decide
  apply ne_hyphen_repr
  have l₁ := hs e₁ h₁
  have l₂ := hs e₂ h₂
  omega

/-- C2 (counterexample): inside a fenced code block a blank line is
skipped (not emitted) and a horizontal-rule line is emitted as a rule
element, not verbatim: the document with code-block body `X`, blank,
`---` emits `<hr>` and no verbatim `---` line. -/
theorem C2_counterexample :
    (markdown_to_html "```\nX\n\n---\n```\n").frags =
      ["<pre><code>\n", "X\n", "<hr>\n", "</code></pre>\n"] ∧
    "---\n" ∉ (markdown_to_html "```\nX\n\n---\n```\n").frags ∧
    "\n" ∉ (markdown_to_html "```\nX\n\n---\n```\n").frags := by
  refine ⟨rfl, by decide, by decide⟩

/-- C2 (amended): while the scanner is in code-block mode, every line that
is not blank, not a horizontal-rule line and not a fence line is emitted
verbatim as code content, with no inline-formatting substitutions applied
(blank lines are skipped and horizontal-rule lines emit a rule element
even inside code blocks, because those two categories are tested first). -/
theorem C2_code_verbatim (st : ScanState) (line : String)
    (h1 : st.in_code_block = true) (h2 : line.data ≠ [])
    (h3 : isHorizontalRule line.data = false) (h4 : fenceMatch line.data = none) :
    processLine st line = { st with frags := st.frags ++ [line ++ "\n"] } :=
  processLine_code st line h2 h3 h4 h1

theorem C2_code_verbatim_witness :
    processLine { initState with in_code_block := true } "| # *table* |" =
      { initState with in_code_block := true, frags := ["| # *table* |\n"] } := by
  have h := C2_code_verbatim { initState with in_code_block := true } "| # *table* |"
    rfl (by decide) (by decide) (by decide)
  simpa using h

/-- C3: the id assigner lower-cases, replaces spaces by hyphens, deletes
all characters that are not alphanumeric, hyphen or underscore; a fresh
base id is registered at counter 0 and returned unmodified, a registered
one has its counter bumped and `base-N` (new counter value) is returned;
the example document with two `## Title` headings yields `title` and
`title-1`. -/
theorem C3_id_assignment :
    (∀ t : String, sanitize_id t =
      String.mk (((t.data.map toLowerC).map fun c =>
        if c = ' ' then '-' else c).filter keepIdChar)) ∧
    (∀ (t : String) (m : List (String × Nat)), lookupC m (sanitize_id t) = none →
      generate_unique_id t m = (sanitize_id t, updateC m (sanitize_id t) 0)) ∧
    (∀ (t : String) (m : List (String × Nat)) (c : Nat),
      lookupC m (sanitize_id t) = some c →
      generate_unique_id t m =
        (sanitize_id t ++ "-" ++ Nat.repr (c + 1), updateC m (sanitize_id t) (c + 1))) ∧
    (markdown_to_html "## Title\n\nSome text\n\n## Title\n").toc.map TocEntry.id =
      ["title", "title-1"] :=
  ⟨fun _ => rfl, fun _ _ h => generate_unique_id_fresh h,
    fun _ _ _ h => generate_unique_id_present h, rfl⟩

theorem C3_id_assignment_witness :
    generate_unique_id "My Title" [] = ("my-title", [("my-title", 0)]) ∧
    generate_unique_id "My Title" [("my-title", 0)] = ("my-title-1", [("my-title", 1)]) := by
  refine ⟨?_, ?_⟩
  · have h := C3_id_assignment.2.1 "My Title" [] rfl
    exact h.trans rfl
  · have h := C3_id_assignment.2.2.1 "My Title" [("my-title", 0)] 0 rfl
    exact h.trans rfl

/-- C4: for every non-empty heading sequence (with the levels 1-6 the
scanner produces), the TOC builder's opens and closes balance exactly —
the fragment list contains as many `<ul>` openers as `</ul>` closers —
and for levels `[1,2,3,2,1]` the emitted sequence tracks the level
transitions and ends fully closed. -/
theorem C4_toc_nesting :
    (∀ toc : List TocEntry, toc ≠ [] → (∀ e ∈ toc, 1 ≤ e.level) →
      (generate_toc_frags toc).count openUl = (generate_toc_frags toc).count closeUl) ∧
    generate_toc_frags
        [⟨1, "a", "a"⟩, ⟨2, "b", "b"⟩, ⟨3, "c", "c"⟩, ⟨2, "d", "d"⟩, ⟨1, "e", "e"⟩] =
      ["<div class=\"toc\">\n<h2>Table of Contents</h2>\n", openUl,
       liFrag ⟨1, "a", "a"⟩,
       openUl, liFrag ⟨2, "b", "b"⟩,
       openUl, liFrag ⟨3, "c", "c"⟩,
       closeUl, liFrag ⟨2, "d", "d"⟩,
       closeUl, liFrag ⟨1, "e", "e"⟩,
       closeUl, "</div>\n"] := by
  constructor
  · intro toc hne hlev
    simp only [generate_toc_frags]
    rw [if_neg hne]
    have h1 : (["<div class=\"toc\">\n<h2>Table of Contents</h2>\n", openUl] :
        List String).count openUl = 1 := by decide
    have h2 : (["<div class=\"toc\">\n<h2>Table of Contents</h2>\n", openUl] :
        List String).count closeUl = 0 := by decide
    have h3 : ([closeUl, "</div>\n"] : List String).count openUl = 0 := by decide
    have h4 : ([closeUl, "</div>\n"] : List String).count closeUl = 1 := by decide
    rw [List.count_append, List.count_append, List.count_append, List.count_append,
      h1, h2, h3, h4]
    have hb := tocBody_count toc 1 (le_refl 1) hlev
    omega
  · rfl

theorem C4_toc_nesting_witness :
    (generate_toc_frags [⟨1, "x", "x"⟩, ⟨3, "y", "y"⟩]).count openUl =
      (generate_toc_frags [⟨1, "x", "x"⟩, ⟨3, "y", "y"⟩]).count closeUl :=
  C4_toc_nesting.1 _ (by decide) (by decide)

/-- C5: a document with no headings produces no TOC block at all (the TOC
string is empty, not an empty container) and the assembled page uses the
fixed fallback title `Document`; a document with at least one heading uses
the first heading's text as the page title. -/
theorem C5_toc_empty_and_title :
    (∀ md : String, (markdown_to_html md).toc = [] →
      generate_toc_html (markdown_to_html md).toc = "" ∧
      pageOf md = generate_html_template "Document" ""
        (String.join (markdown_to_html md).frags)) ∧
    (∀ (md : String) (e : TocEntry) (rest : List TocEntry),
      (markdown_to_html md).toc = e :: rest →
      pageOf md = generate_html_template e.text
        (generate_toc_html (markdown_to_html md).toc)
        (String.join (markdown_to_html md).frags)) := by
  constructor
  · intro md h
    refine ⟨by rw [h]; rfl, ?_⟩
    simp only [pageOf]
    rw [h]
    rfl
  · intro md e rest h
    simp only [pageOf]
    rw [h]
    rfl

theorem C5_toc_empty_and_title_witness :
    (generate_toc_html (markdown_to_html "plain text\n").toc = "" ∧
      pageOf "plain text\n" = generate_html_template "Document" ""
        (String.join (markdown_to_html "plain text\n").frags)) ∧
    pageOf "# Hello\n" = generate_html_template "Hello"
      (generate_toc_html (markdown_to_html "# Hello\n").toc)
      (String.join (markdown_to_html "# Hello\n").frags) :=
  ⟨C5_toc_empty_and_title.1 "plain text\n" rfl,
    C5_toc_empty_and_title.2 "# Hello\n" ⟨1, "Hello", "hello"⟩ [] rfl⟩


/-- C6 (counterexample): two heading-shaped lines that emit no heading.
`# a|b` matches the heading pattern (one `#`, a space, text), but because
the line contains a pipe it is consumed as a table row: no heading
element is emitted, no record is appended, and the whole document renders
to nothing (the buffered row is never flushed).  `# x\r` — one `#`, a
space, text ending in a carriage return, as every heading line of a CRLF
file does — fails the heading regexes (ECMAScript `.` excludes `'\r'`)
and is emitted as a paragraph. -/
theorem C6_counterexample :
    (headingMatch ("# a|b".data) = some (1, ['a', '|', 'b']) ∧
      markdown_to_html "# a|b" = ⟨[], []⟩) ∧
    markdown_to_html "# x\r" = ⟨["<p># x\r</p>\n"], []⟩ :=
  ⟨⟨rfl, rfl⟩, rfl⟩

/-- C6 (amended): for every heading line — 1 to 6 leading `#` characters
followed by at least one space, then text — outside code-block mode,
whose text contains no pipe character and no carriage return, the scanner
emits the heading element carrying the freshly assigned unique id and the
text with every literal `**` removed and no other inline formatting
applied, and appends the record `{level, text, id}` to the heading
sequence in document order (flushing any active table first).  The
`headingMatch` hypothesis is exactly the heading regexes' domain, which
contains every such line. -/
theorem C6_heading_line (st : ScanState) (line : String) (n : Nat) (t : List Char)
    (h1 : st.in_code_block = false) (h2 : headingMatch line.data = some (n, t))
    (h3 : '|' ∉ line.data) :
    (processLine st line).toc = st.toc ++ [⟨n, clean_header_text (String.mk t),
      (generate_unique_id (clean_header_text (String.mk t)) st.id_counts).1⟩] ∧
    (processLine st line).frags = st.frags ++
      (if st.in_table = true then [midTableHtml st.table_rows] else []) ++
      [headingFrag n (clean_header_text (String.mk t))
        (generate_unique_id (clean_header_text (String.mk t)) st.id_counts).1] ∧
    (processLine st line).id_counts =
      (generate_unique_id (clean_header_text (String.mk t)) st.id_counts).2 := by
  have hne := headingMatch_ne_nil h2
  have hhr := headingMatch_not_hr h2
  have hfence := headingMatch_not_fence h2
  have hdiv := headingMatch_not_divider h2
  have hcont : line.data.contains '|' = false := by simpa using h3
  by_cases h7 : st.in_table = true
  · rw [processLine_flush st line hne hhr hfence h1 hdiv hcont h7,
      afterTables_heading _ _ _ _ h2, emitHeading_eq]
    rw [if_pos h7]
    refine ⟨rfl, ?_, rfl⟩
    simp [List.append_assoc]
  · replace h7 : st.in_table = false := by simpa using h7
    rw [processLine_plain st line hne hhr hfence h1 hdiv hcont h7,
      afterTables_heading _ _ _ _ h2, emitHeading_eq]
    rw [if_neg (by simp [h7])]
    refine ⟨rfl, by simp, rfl⟩

theorem C6_heading_line_witness :
    (processLine initState "## **Bold** Title").toc = [⟨2, "Bold Title", "bold-title"⟩] ∧
    (processLine initState "## **Bold** Title").frags =
      ["<h2 id=\"bold-title\">Bold Title</h2>\n"] ∧
    (processLine initState "## **Bold** Title").id_counts = [("bold-title", 0)] := by
  have h := C6_heading_line initState "## **Bold** Title" 2 ("**Bold** Title".data)
    rfl (by decide) (by decide)
  exact ⟨h.1.trans rfl, h.2.1.trans rfl, h.2.2.trans rfl⟩

/-- C7: the end-of-document table flush emits HTML identical to the
mid-document flush for the same buffered rows (first buffered row as
header cells, later rows as body cells); concretely, a table ending the
document and the same table flushed by a trailing non-pipe line produce
the same table element. -/
theorem C7_table_flush_equiv :
    (∀ rows : List (List String), midTableHtml rows = endTableHtml rows) ∧
    markdown_to_html "|a|b|\n|---|---|\n|c|d|\n" =
      ⟨[endTableHtml [["a", "b"], ["c", "d"]]], []⟩ ∧
    markdown_to_html "|a|b|\n|---|---|\n|c|d|\nx\n" =
      ⟨[midTableHtml [["a", "b"], ["c", "d"]], "<p>x</p>\n"], []⟩ := by
  refine ⟨?_, rfl, rfl⟩
  intro rows
  simp only [midTableHtml, endTableHtml, tableRows_mid_eq_end]

/-- C8: a table-divider line met while the table buffer is empty (outside
code-block mode) does not activate table mode and is not treated as a
divider or a table row: it falls through to ordinary-text processing and
is emitted as a paragraph, with all other state unchanged. -/
theorem C8_divider_empty_buffer (st : ScanState) (line : String)
    (h1 : st.in_code_block = false) (h2 : st.table_rows = [])
    (h3 : isTableDivider line.data = true) :
    processLine st line = { st with frags := st.frags ++ ["<p>" ++ line ++ "</p>\n"] } := by
  have hne := isTableDivider_ne_nil h3
  have hhr := isTableDivider_not_hr h3
  have hfence := isTableDivider_not_fence h3
  have hhead := isTableDivider_not_heading h3
  have hbr : '[' ∉ line.data := by
    intro hm
    have hch := isTableDivider_chars h3 '[' hm
    revert hch
    decide
  have hst : '*' ∉ line.data := by
    intro hm
    have hch := isTableDivider_chars h3 '*' hm
    revert hch
    decide
  have hbt : Char.ofNat 96 ∉ line.data := by
    intro hm
    have hch := isTableDivider_chars h3 (Char.ofNat 96) hm
    revert hch
    decide
  have hnact : ¬(st.in_table = false ∧ st.table_rows ≠ []) := fun hc => hc.2 h2
  rw [processLine_divider_fall st line hne hhr hfence h1 h3 hnact,
    afterTables_para _ _ hhead]
  have hpar : paragraphFrags line.data = ["<p>" ++ line ++ "</p>\n"] := by
    simp only [paragraphFrags, inlineParagraph_id hbr hst hbt]
    rw [if_neg hne]
  rw [hpar]

theorem C8_divider_empty_buffer_witness :
    processLine initState "|---|---|" =
      { initState with frags := ["<p>|---|---|</p>\n"] } := by
  have h := C8_divider_empty_buffer initState "|---|---|" rfl rfl (by decide)
  exact h

/-- C9 (counterexample): when a required flag is missing, the error line
is the only write to the error stream; the usage text goes to standard
output, not to the error stream as the claim states. -/
theorem C9_counterexample :
    (parse_args ["-m", "in.md"]).events =
      (Channel.stderr, missingMsg) :: show_help ∧
    (∀ ev ∈ (parse_args ["-m", "in.md"]).events,
      ev.1 = Channel.stderr → ev.2 = missingMsg) ∧
    (Channel.stderr, "Uso: m2h -m archivo.md -o salida.html\n") ∉
      (parse_args ["-m", "in.md"]).events :=
  ⟨rfl, by decide, by decide⟩

/-- C9 (amended): for every invocation without a help flag in which a
required path (the -m or the -o flag value) is left unset, `parse_args`
returns failure after writing the error message to the error stream and
the usage text to standard output (never to the error stream), and the
process exits with status 1 without reading input or writing any file. -/
theorem C9_missing_flags (args : List String) (fs : String → Option String)
    (hh1 : "-h" ∉ args) (hh2 : "--help" ∉ args)
    (hm : (parse_args args).markdown_path = "" ∨ (parse_args args).output_path = "") :
    (parse_args args).ok = false ∧
    (parse_args args).events = (Channel.stderr, missingMsg) :: show_help ∧
    (∀ s ∈ usageLines, (Channel.stderr, s) ∉ (parse_args args).events) ∧
    runMain args fs = ⟨1, (parse_args args).events, []⟩ := by
  have hloop := parseLoop_no_help args.length args (le_refl _) hh1 hh2 "" ""
  rcases hpl : parseLoop args "" "" with ⟨m2, o2, ev⟩
  rw [hpl] at hloop
  have hev : ev = none := hloop
  subst hev
  have hpa : parse_args args = if m2 = "" ∨ o2 = "" then
      ⟨false, m2, o2, (Channel.stderr, missingMsg) :: show_help⟩
    else ⟨true, m2, o2, []⟩ := by
    simp [parse_args, hpl]
  by_cases hcond : m2 = "" ∨ o2 = ""
  · rw [if_pos hcond] at hpa
    refine ⟨by rw [hpa], by rw [hpa], ?_, ?_⟩
    · intro s hs hmem
      rw [hpa] at hmem
      rcases List.mem_cons.mp hmem with h | h
      · have hseq : s = missingMsg := congrArg Prod.snd h
        have hne2 : ∀ u ∈ usageLines, u ≠ missingMsg := by decide
        exact hne2 s hs hseq
      · simp only [show_help, List.mem_map] at h
        rcases h with ⟨u, _, hu⟩
        exact Channel.noConfusion (congrArg Prod.fst hu)
    · refine runMain_parse_fail args fs ?_
      rw [hpa]
  · rw [if_neg hcond] at hpa
    rw [hpa] at hm
    exact absurd hm hcond

theorem C9_missing_flags_witness :
    (parse_args ["-m", "in.md"]).ok = false ∧
    (parse_args ["-m", "in.md"]).events = (Channel.stderr, missingMsg) :: show_help ∧
    (∀ s ∈ usageLines, (Channel.stderr, s) ∉ (parse_args ["-m", "in.md"]).events) ∧
    runMain ["-m", "in.md"] (fun _ => none) =
      ⟨1, (parse_args ["-m", "in.md"]).events, []⟩ :=
  C9_missing_flags ["-m", "in.md"] (fun _ => none) (by decide) (by decide) (by decide)

/-- C10: every TOC link targets an id that exists in the generated body:
for each heading record, the body fragments contain the heading element
carrying that record's id, and the TOC fragments contain the list item
whose href fragment is the same id. -/
theorem C10_toc_links_resolve (md : String) (e : TocEntry)
    (h : e ∈ (markdown_to_html md).toc) :
    headingFrag e.level e.text e.id ∈ (markdown_to_html md).frags ∧
    liFrag e ∈ generate_toc_frags (markdown_to_html md).toc := by
  constructor
  · have h2 : e ∈ (processLines initState (getLines md)).toc := by
      rw [← markdown_toc]
      exact h
    have h3 := processLines_headingFrag_inv (getLines md) initState
      (fun f hf => absurd hf (List.not_mem_nil f)) e h2
    rcases markdown_frags_sup md with ⟨δ, hδ⟩
    rw [hδ]
    exact List.mem_append_left _ h3
  · have hne : (markdown_to_html md).toc ≠ [] := by
      intro hc
      rw [hc] at h
      exact List.not_mem_nil e h
    simp only [generate_toc_frags]
    rw [if_neg hne]
    exact List.mem_append_left _ (List.mem_append_right _ (liFrag_mem_tocBody _ _ h))

theorem C10_toc_links_resolve_witness :
    headingFrag 1 "A" "a" ∈ (markdown_to_html "# A\n").frags ∧
    liFrag ⟨1, "A", "a"⟩ ∈ generate_toc_frags (markdown_to_html "# A\n").toc :=
  C10_toc_links_resolve "# A\n" ⟨1, "A", "a"⟩ (by decide)

end M2h
